import Mathlib

/-!
Verification of the portfolio data-processing core of this repository.

The definitions below are a shallow embedding of the TypeScript source,
mainly `src/components/performance-chart.tsx` (the processing pipeline:
`processPortfolioData`, `processHoldings`, `processTimeSeriesData`,
`mergeTimeSeriesData`, `standardizeDate`, `parseCSV`) together with the
open-deposits aggregation of `src/unnamed/part_003` and the
current-holdings aggregation of `src/unnamed/part_000`.

Conventions of the embedding:
- JavaScript numbers are modelled as rationals; a computation whose
  JavaScript value would be non-finite (NaN or Infinity) is modelled with
  `Option` where that matters (`jsDiv`).
- JavaScript `Map` objects (insertion ordered, last write wins per key)
  are modelled as association lists with in-place update (`alSet`).
- Date values are standardized to `YYYY-MM-DD` strings by the pipeline
  before any comparison; comparisons `new Date(a) < new Date(b)` on such
  strings coincide with lexicographic string order, which is how they are
  modelled (`strLtB`).
-/

/-! ## Generic helpers: association lists in JavaScript `Map` style -/

/-- Lookup in an association list, first binding wins (keys are unique by
construction, as in a JavaScript `Map`). -/
def alGet {β : Type} (m : List (String × β)) (k : String) : Option β :=
  (m.find? (fun p => p.1 = k)).map (fun p => p.2)

/-- `Map.has`. -/
def alHas {β : Type} (m : List (String × β)) (k : String) : Bool :=
  m.any (fun p => p.1 = k)

/-- `Map.set`: overwrite in place when the key exists (keeping its
position, as a JavaScript `Map` does), otherwise append. -/
def alSet {β : Type} (m : List (String × β)) (k : String) (v : β) : List (String × β) :=
  if m.any (fun p => p.1 = k) then
    m.map (fun p => if p.1 = k then (k, v) else p)
  else
    m ++ [(k, v)]

/-- `Map.delete`. -/
def alDelete {β : Type} (m : List (String × β)) (k : String) : List (String × β) :=
  m.filter (fun p => ¬ p.1 = k)

/-- Push a value onto the list stored under a key (the
`if (!map.has(k)) map.set(k, []); map.get(k).push(v)` idiom). -/
def alPush {β : Type} (m : List (String × List β)) (k : String) (v : β) : List (String × List β) :=
  match alGet m k with
  | some l => alSet m k (l ++ [v])
  | none => alSet m k [v]

/-- Deduplicate keeping the first occurrence of each element, in order.
This is the membership order of a JavaScript `Set` or of `Map` keys. -/
def dedupFirst (l : List String) : List String :=
  l.foldl (fun acc k => if k ∈ acc then acc else acc ++ [k]) []

/-! ## Generic helpers: strings -/

/-- Split the character list of a string at every character satisfying
the predicate (JavaScript `String.split`, which yields `[""]` on the
empty string and keeps empty segments). -/
def splitOnPred (p : Char → Bool) (s : String) : List String :=
  let rec go : List Char → List Char → List String
    | [], cur => [String.mk cur.reverse]
    | c :: cs, cur => if p c then String.mk cur.reverse :: go cs [] else go cs (c :: cur)
  go s.data []

/-- Lexicographic order on character lists by code point. -/
def lexLt : List Char → List Char → Bool
  | [], [] => false
  | [], _ :: _ => true
  | _ :: _, [] => false
  | a :: as, b :: bs =>
    if a.toNat < b.toNat then true
    else if a.toNat = b.toNat then lexLt as bs
    else false

/-- Strict string order by code point. On standardized `YYYY-MM-DD` date
strings this coincides with the chronological order the source obtains
from `new Date(a).getTime()` comparisons, and on account or date keys it
is the default JavaScript string comparison. -/
def strLtB (a b : String) : Bool := lexLt a.data b.data

/-- Non-strict companion of `strLtB`. -/
def strLeB (a b : String) : Bool := ¬ strLtB b a

/-- Insert into a sorted list after any equal elements, so that the
enclosing sort is stable, as a modern JavaScript `Array.sort` is. -/
def insertSorted {α : Type} (le : α → α → Bool) (x : α) : List α → List α
  | [] => [x]
  | y :: ys => if le y x then y :: insertSorted le x ys else x :: y :: ys

/-- Stable sort by the given comparison (models `Array.sort`). -/
def sortBy {α : Type} (le : α → α → Bool) (l : List α) : List α :=
  l.foldl (fun acc x => insertSorted le x acc) []

/-- Trim ASCII whitespace from both ends (`String.trim`). -/
def trimString (s : String) : String :=
  String.mk (((s.data.dropWhile Char.isWhitespace).reverse.dropWhile Char.isWhitespace).reverse)

/-- `padStart(2, "0")`. -/
def pad2 (s : String) : String := if s.length < 2 then "0" ++ s else s

/-- Division as JavaScript produces it on finite inputs: `none` stands
for the non-finite result (Infinity or NaN) obtained when the
denominator is zero. -/
def jsDiv (a b : ℚ) : Option ℚ := if b = 0 then none else some (a / b)

/-! ## Numeric and date parsing -/

/-- Value of a decimal digit character. -/
def digitVal? (c : Char) : Option Nat :=
  if c.isDigit then some (c.toNat - 48) else none

/-- Parse a nonempty all-digit character list as a natural number. -/
def parseNatDigits : List Char → Option Nat
  | [] => none
  | cs =>
    cs.foldl
      (fun acc c =>
        match acc, digitVal? c with
        | some n, some d => some (n * 10 + d)
        | _, _ => none)
      (some 0)

/-- Modelled from the spec: numeric cells are coerced by the external
Papa parser and by the `Number(x) || 0` idiom, "loosely typed cells
(numeric coercion tolerant of missing/blank → 0)" (spec §6). A decimal
string with optional sign and fraction parses to its rational value;
anything else (blank, malformed) is 0. -/
def parseRat (s : String) : ℚ :=
  let cs := (trimString s).data
  let signAndRest : ℚ × List Char :=
    match cs with
    | '-' :: rest => (-1, rest)
    | '+' :: rest => (1, rest)
    | _ => (1, cs)
  let sign := signAndRest.1
  let body := signAndRest.2
  let intPart := body.takeWhile (fun c => ¬ c = '.')
  let rest := body.dropWhile (fun c => ¬ c = '.')
  match rest with
  | [] =>
    match parseNatDigits intPart with
    | some n => sign * n
    | none => 0
  | _ :: fracPart =>
    match parseNatDigits intPart, parseNatDigits fracPart with
    | some n, some f => sign * ((n : ℚ) + (f : ℚ) / ((10 : ℚ) ^ fracPart.length))
    | some n, none => if fracPart = [] then sign * (n : ℚ) else 0
    | none, some f => sign * ((f : ℚ) / ((10 : ℚ) ^ fracPart.length))
    | none, none => 0

/-- Gregorian leap year. -/
def isLeapYear (y : Nat) : Bool := (y % 4 = 0 ∧ ¬ y % 100 = 0) ∨ y % 400 = 0

/-- Days in a month. -/
def daysInMonth (y m : Nat) : Nat :=
  if m = 2 then (if isLeapYear y then 29 else 28)
  else if m = 4 ∨ m = 6 ∨ m = 9 ∨ m = 11 then 30
  else 31

/-- Whether a string is a valid `YYYY-MM-DD` calendar date. -/
def isValidISODate (s : String) : Bool :=
  match s.data with
  | [y1, y2, y3, y4, '-', m1, m2, '-', d1, d2] =>
    match digitVal? y1, digitVal? y2, digitVal? y3, digitVal? y4,
          digitVal? m1, digitVal? m2, digitVal? d1, digitVal? d2 with
    | some a, some b, some c, some d, some e, some f, some g, some h =>
      let y := ((a * 10 + b) * 10 + c) * 10 + d
      let m := e * 10 + f
      let day := g * 10 + h
      1 ≤ m ∧ m ≤ 12 ∧ 1 ≤ day ∧ day ≤ daysInMonth y m
    | _, _, _, _, _, _, _, _ => false
  | _ => false

/-- `standardizeDate` from `performance-chart.tsx` (lines 1206-1237):
attempt a direct parse; on failure split on `/` or `-` and try the
`MM/DD/YYYY` and `DD/MM/YYYY` part orders (each part padded to two
digits); on total failure return the input unchanged. The direct parse
is delegated by the source to the platform `new Date(dateStr)` engine,
which is not part of this repository; modelled from the spec (§4.1
"attempt direct parse", canonical form `YYYY-MM-DD`) as acceptance of a
valid ISO date, which the source then returns via
`toISOString().split("T")[0]`. -/
def standardizeDate (dateStr : String) : String :=
  if isValidISODate dateStr then dateStr
  else
    let parts := splitOnPred (fun c => c = '/' ∨ c = '-') dateStr
    if parts.length = 3 then
      let p0 := (parts.get? 0).getD ""
      let p1 := (parts.get? 1).getD ""
      let p2 := (parts.get? 2).getD ""
      let arrangement1 := p2 ++ "-" ++ pad2 p0 ++ "-" ++ pad2 p1
      let arrangement2 := p2 ++ "-" ++ pad2 p1 ++ "-" ++ pad2 p0
      if isValidISODate arrangement1 then arrangement1
      else if isValidISODate arrangement2 then arrangement2
      else dateStr
    else dateStr

/-! ## Data model

Record types mirroring the TypeScript interfaces of
`performance-chart.tsx`. The transaction type is named `Transaction` in
the source; the instrument reference type is named `Symbol` there and
`SymbolMeta` here to avoid clashing with a library name. Field names
with spaces (`"Status Tr"`, `"Qty Change"`, `"Cost change"`,
`"Cash Impact"`, `"Net Price"`) are camel-cased. -/

structure Transaction where
  Symbol : String
  Account : String
  Date : String
  StatusTr : String
  ShNameEng : String
  QtyChange : ℚ
  CostChange : ℚ
  Realized3 : ℚ
  CashImpact : ℚ
  NetPrice : ℚ
  Db : ℚ
deriving DecidableEq

structure SymbolMeta where
  Symbol : String
  ShNameEng : String
  Sector : String
deriving DecidableEq

structure Quote where
  Symbol : String
  Date : String
  Close : ℚ
deriving DecidableEq

structure Holding where
  Symbol : String
  Account : String
  Name : String
  Sector : String
  Status : String
  Quantity : ℚ
  Cost : ℚ
  TotalCost : ℚ
  AvgCost : ℚ
  Price : ℚ
  Value : ℚ
  UnrealizedGain : ℚ
  UnrealizedGainPct : ℚ
  RealizedGain : ℚ
  RealizedGainPct : ℚ
  TotalReturn : ℚ
  TotalReturnPct : ℚ
  Db : ℚ
  cashBalance : ℚ
deriving DecidableEq

/-- One time-series entry. Per-account entries carry `account` and no
`accountValues`; merged all-accounts entries carry `accountValues` and
no `account` (both are plain dynamic objects in the source). -/
structure TSPoint where
  date : String
  cashValue : ℚ
  equityValue : ℚ
  totalValue : ℚ
  realizedGain : ℚ
  unrealizedGain : ℚ
  egx30 : ℚ
  hasQuotes : Bool
  account : Option String
  accountValues : Option (List (String × ℚ))
deriving DecidableEq

structure SummaryMetrics where
  totalValue : ℚ
  cashBalance : ℚ
  equityValue : ℚ
  realizedGain : ℚ
  unrealizedGain : ℚ
deriving DecidableEq

structure AccountData where
  name : String
  currentHoldings : List Holding
  closedPositions : List Holding
  timeSeriesData : List TSPoint
  summaryMetrics : SummaryMetrics
deriving DecidableEq

/-- The root aggregate. `quotes` and `latestQuotes` are `Option` because
the error-path shell of `processPortfolioData` omits them. -/
structure PortfolioData where
  accounts : List AccountData
  currentHoldings : List Holding
  closedPositions : List Holding
  timeSeriesData : List TSPoint
  transactions : List Transaction
  quotes : Option (List Quote)
  latestQuotes : Option (List (String × Quote))
  summaryMetrics : SummaryMetrics
deriving DecidableEq

/-! ## CSV parsing -/

/-- Split text into lines, tolerating `\r\n` endings. -/
def splitLines (s : String) : List String :=
  (splitOnPred (fun c => c = '\n') s).map
    (fun l => String.mk (l.data.filter (fun c => ¬ c = '\r')))

/-- Modelled from the spec: `parseCSV` (performance-chart.tsx lines
1191-1203) delegates to the external Papa library with
`header: true, dynamicTyping: true, skipEmptyLines: true`; the library
is not part of this repository. Per spec §6 the inputs are
"delimited-text tables, each with header row". Rows are the nonblank
lines split on commas. -/
def parseRows (text : String) : List (List String) :=
  ((splitLines text).filter (fun l => ¬ trimString l = "")).map
    (fun line => splitOnPred (fun c => c = ',') line)

/-- The cell of a row under a named header column, or the empty string
(standing for a missing cell). -/
def fieldAt (header row : List String) (name : String) : String :=
  match header.findIdx? (fun h => h = name) with
  | some i => (row.get? i).getD ""
  | none => ""

/-- Parse the transactions table. -/
def parseCSVTransactions (text : String) : List Transaction :=
  match parseRows text with
  | [] => []
  | header :: rows =>
    rows.map (fun row =>
      { Symbol := fieldAt header row "Symbol"
        Account := fieldAt header row "Account"
        Date := fieldAt header row "Date"
        StatusTr := fieldAt header row "Status Tr"
        ShNameEng := fieldAt header row "Sh_name_eng"
        QtyChange := parseRat (fieldAt header row "Qty Change")
        CostChange := parseRat (fieldAt header row "Cost change")
        Realized3 := parseRat (fieldAt header row "Realized3")
        CashImpact := parseRat (fieldAt header row "Cash Impact")
        NetPrice := parseRat (fieldAt header row "Net Price")
        Db := parseRat (fieldAt header row "Db") })

/-- Parse the instrument reference table. -/
def parseCSVSymbols (text : String) : List SymbolMeta :=
  match parseRows text with
  | [] => []
  | header :: rows =>
    rows.map (fun row =>
      { Symbol := fieldAt header row "Symbol"
        ShNameEng := fieldAt header row "Sh_name_eng"
        Sector := fieldAt header row "Sector" })

/-- Parse the quotes table. -/
def parseCSVQuotes (text : String) : List Quote :=
  match parseRows text with
  | [] => []
  | header :: rows =>
    rows.map (fun row =>
      { Symbol := fieldAt header row "Symbol"
        Date := fieldAt header row "Date"
        Close := parseRat (fieldAt header row "Close") })

/-! ## Reference indexers (performance-chart.tsx lines 1296-1317) -/

/-- Symbol index: last write wins (lines 1297-1300). -/
def symbolMapOf (symbols : List SymbolMeta) : List (String × SymbolMeta) :=
  symbols.foldl (fun m s => alSet m s.Symbol s) []

/-- One step of the latest-quote index construction (lines 1304-1309):
`if (!existing || new Date(quote.Date) > new Date(existing.Date))`,
a strict comparison, so an equal date does not replace the stored
quote. -/
def latestQuoteStep (m : List (String × Quote)) (quote : Quote) : List (String × Quote) :=
  match alGet m quote.Symbol with
  | none => alSet m quote.Symbol quote
  | some existing =>
    if strLtB existing.Date quote.Date then alSet m quote.Symbol quote else m

/-- Latest-quote index (lines 1302-1309): for each symbol keep the quote
with the maximum date; the comparison is the strict
`new Date(quote.Date) > new Date(existing.Date)`. -/
def latestQuotesOf (quotes : List Quote) : List (String × Quote) :=
  quotes.foldl latestQuoteStep []

/-- The set of dates that have quotes (lines 1312-1317). -/
def quoteDatesOf (quotes : List Quote) : List String :=
  dedupFirst (quotes.filterMap (fun q => if ¬ q.Date = "" then some q.Date else none))

/-! ## Position aggregator and holding valuator
(`processHoldings`, performance-chart.tsx lines 1557-1683) -/

/-- The grouping key `` `${symbol}-${account}` `` with the
`transaction.Account || "Unknown"` fallback (lines 1578-1587). -/
def keyOf (t : Transaction) : String :=
  t.Symbol ++ "-" ++ (if t.Account = "" then "Unknown" else t.Account)

/-- Keys of the symbol-account groups in first-occurrence order (the
iteration order of the `Map` built at lines 1578-1587). -/
def groupKeys (transactions : List Transaction) : List String :=
  dedupFirst (transactions.map keyOf)

/-- The transactions of one group, in input order (the pushes at line
1586 preserve input order within each key). -/
def groupFor (transactions : List Transaction) (key : String) : List Transaction :=
  transactions.filter (fun t => keyOf t = key)

/-- Net quantity of a group: the sum of the signed `Qty Change` fields. -/
def netQty (transactions : List Transaction) (key : String) : ℚ :=
  ((groupFor transactions key).map (fun t => t.QtyChange)).sum

/-- Cash balance over a transaction list, excluding Time Deposit rows
(lines 1570-1576). -/
def cashBalanceOf (transactions : List Transaction) : ℚ :=
  (transactions.map (fun t => if t.StatusTr = "Time Deposit" then 0 else t.CashImpact)).sum

/-- The body of the per-group loop of `processHoldings`
(lines 1590-1672): sort the group by date, accumulate quantity, debit,
cost change and realized return, derive OpenCost, resolve the price from
the latest-quote index, and build the holding record. `statusType` is
the optional status argument; `includeZeroQuantity` marks the
closed-positions call. -/
def mkHolding (symbolMap : List (String × SymbolMeta)) (latestQuotes : List (String × Quote))
    (statusType : Option String) (includeZeroQuantity : Bool) (cashBalance : ℚ)
    (key : String) (group : List Transaction) : Holding :=
  let sorted := sortBy (fun a b => strLeB a.Date b.Date) group
  let quantity := (sorted.map (fun t => t.QtyChange)).sum
  let totalDebit := (sorted.map (fun t => t.Db)).sum
  let costChangeSum := (sorted.map (fun t => t.CostChange)).sum
  let cumulativeRealizedReturn := (sorted.map (fun t => t.Realized3)).sum
  let openCost := costChangeSum + cumulativeRealizedReturn
  let parts := splitOnPred (fun c => c = '-') key
  let symbol := (parts.get? 0).getD ""
  let account := (parts.get? 1).getD ""
  let symbolInfo := (alGet symbolMap symbol).getD { Symbol := symbol, ShNameEng := symbol, Sector := "Unknown" }
  let price := match alGet latestQuotes symbol with
    | some quote => quote.Close
    | none => 0
  let value := quantity * price
  let unrealizedGain := if includeZeroQuantity then 0 else value - openCost
  let totalReturn :=
    if includeZeroQuantity then cumulativeRealizedReturn
    else cumulativeRealizedReturn + unrealizedGain
  let absDebit := |totalDebit|
  let totalReturnPct := if ¬ absDebit = 0 then totalReturn / absDebit * 100 else 0
  let unrealizedGainPct := if ¬ absDebit = 0 then unrealizedGain / absDebit * 100 else 0
  let realizedGainPct := if ¬ absDebit = 0 then cumulativeRealizedReturn / absDebit * 100 else 0
  let displayStatus : Option String :=
    match statusType with
    | some s => if s = "Cleared-RE" ∨ s = "Clered -RE" then some "Cleared" else some s
    | none => none
  let firstStatus := ((sorted.get? 0).map (fun t => t.StatusTr)).getD ""
  let status :=
    match displayStatus with
    | some s => if s = "" then firstStatus else s
    | none => firstStatus
  { Symbol := symbol
    Account := account
    Name := if symbolInfo.ShNameEng = "" then symbol else symbolInfo.ShNameEng
    Sector := if symbolInfo.Sector = "" then "Unknown" else symbolInfo.Sector
    Status := status
    Quantity := quantity
    Cost := openCost
    TotalCost := costChangeSum
    AvgCost := if |quantity| > 1 / 10000 then |openCost / quantity| else 0
    Price := price
    Value := value
    UnrealizedGain := unrealizedGain
    UnrealizedGainPct := unrealizedGainPct
    RealizedGain := cumulativeRealizedReturn
    RealizedGainPct := realizedGainPct
    TotalReturn := totalReturn
    TotalReturnPct := totalReturnPct
    Db := totalDebit
    cashBalance := cashBalance }

/-- `processHoldings` (lines 1557-1683): group by symbol and account,
emit one holding per group, skipping groups with
`|quantity| ≤ 0.0001` unless `includeZeroQuantity`, and stamp the
cash balance on every holding. -/
def processHoldings (transactions : List Transaction)
    (symbolMap : List (String × SymbolMeta)) (latestQuotes : List (String × Quote))
    (statusType : Option String) (includeZeroQuantity : Bool) : List Holding :=
  let cashBalance := cashBalanceOf transactions
  let holdings :=
    ((groupKeys transactions).filter
        (fun key => includeZeroQuantity ∨ |netQty transactions key| > 1 / 10000)).map
      (fun key =>
        mkHolding symbolMap latestQuotes statusType includeZeroQuantity cashBalance key
          (groupFor transactions key))
  holdings.map (fun h => { h with cashBalance := cashBalance })

/-! ## Time-series reconstructor
(`processTimeSeriesData`, performance-chart.tsx lines 1686-2008) -/

/-- Per-symbol running holding state (lines 1785-1807). -/
structure HoldState where
  quantity : ℚ
  costChangeSum : ℚ
  cumulativeRealizedReturn : ℚ
  totalDebit : ℚ
  lastKnownPrice : ℚ
deriving DecidableEq

/-- The mutable state threaded through the date loop
(lines 1784-1814). -/
structure TSState where
  cashBalance : ℚ
  holdings : List (String × HoldState)
  timeDepositHoldings : List (String × HoldState)
  totalRealizedGain : ℚ
  lastValidEquityValue : ℚ
  lastValidEgx30Value : ℚ
  lastValidUnrealizedGain : ℚ
  lastValidTotalValue : ℚ
deriving DecidableEq

/-- The read-only context of the date loop. -/
structure TSContext where
  accountTransactions : List Transaction
  egx30Map : List (String × ℚ)
  quotesByDateAndSymbol : List (String × List (String × ℚ))
  latestQuotes : List (String × Quote)
  selectedAccount : String

/-- Symbols excluded from holding-state tracking (lines 1770, 1829). -/
def excludedSymbols : List String :=
  ["Deposit", "DEPOSIT", "Cash", "CASH", "Expenses", "EXPENSES", ""]

/-- Apply one transaction of the current date to the state
(lines 1821-1860): update cash and cumulative realized gain, then the
relevant holding map, pruning entries whose quantity collapses below
`0.0001`. -/
def applyTransaction (st : TSState) (t : Transaction) : TSState :=
  let cash := st.cashBalance + t.CashImpact
  let realizedGainChange := t.Realized3
  let trg := st.totalRealizedGain + realizedGainChange
  if ¬ t.Symbol = "" ∧ t.Symbol ∉ excludedSymbols then
    let isTimeDeposit := t.StatusTr = "Time Deposit"
    let holdingsMap := if isTimeDeposit then st.timeDepositHoldings else st.holdings
    let current := (alGet holdingsMap t.Symbol).getD
      { quantity := 0, costChangeSum := 0, cumulativeRealizedReturn := 0,
        totalDebit := 0, lastKnownPrice := 0 }
    let current :=
      { current with
        quantity := current.quantity + t.QtyChange
        costChangeSum := current.costChangeSum + t.CostChange
        cumulativeRealizedReturn := current.cumulativeRealizedReturn + realizedGainChange
        totalDebit := current.totalDebit + t.Db }
    let holdingsMap :=
      if |current.quantity| < 1 / 10000 then alDelete holdingsMap t.Symbol
      else alSet holdingsMap t.Symbol current
    if isTimeDeposit then
      { st with cashBalance := cash, totalRealizedGain := trg, timeDepositHoldings := holdingsMap }
    else
      { st with cashBalance := cash, totalRealizedGain := trg, holdings := holdingsMap }
  else
    { st with cashBalance := cash, totalRealizedGain := trg }

/-- Accumulator of the regular-holdings valuation loop
(lines 1862-1905). -/
structure ValueAcc where
  entries : List (String × HoldState)
  equityValue : ℚ
  unrealizedGain : ℚ
  hasAllPrices : Bool

/-- Value one regular holding (lines 1873-1905): same-day quote if
positive, else last known price, else the latest-quote fallback; a
non-same-day or missing price clears `hasAllPrices`. -/
def valueRegularHolding (datePrices : Option (List (String × ℚ)))
    (latestQuotes : List (String × Quote)) (acc : ValueAcc)
    (entry : String × HoldState) : ValueAcc :=
  let symbol := entry.1
  let holding := entry.2
  let sameDay : Option ℚ :=
    match datePrices with
    | some m =>
      match alGet m symbol with
      | some p => if p > 0 then some p else none
      | none => none
    | none => none
  match sameDay with
  | some price =>
    let holding := { holding with lastKnownPrice := price }
    { entries := acc.entries ++ [(symbol, holding)]
      equityValue := acc.equityValue + holding.quantity * price
      unrealizedGain := acc.unrealizedGain +
        (holding.quantity * price - (holding.costChangeSum + holding.cumulativeRealizedReturn))
      hasAllPrices := acc.hasAllPrices }
  | none =>
    if holding.lastKnownPrice > 0 then
      let price := holding.lastKnownPrice
      { entries := acc.entries ++ [(symbol, holding)]
        equityValue := acc.equityValue + holding.quantity * price
        unrealizedGain := acc.unrealizedGain +
          (holding.quantity * price - (holding.costChangeSum + holding.cumulativeRealizedReturn))
        hasAllPrices := false }
    else
      match alGet latestQuotes symbol with
      | some quote =>
        let price := quote.Close
        let holding := { holding with lastKnownPrice := price }
        if price > 0 then
          { entries := acc.entries ++ [(symbol, holding)]
            equityValue := acc.equityValue + holding.quantity * price
            unrealizedGain := acc.unrealizedGain +
              (holding.quantity * price - (holding.costChangeSum + holding.cumulativeRealizedReturn))
            hasAllPrices := false }
        else
          { entries := acc.entries ++ [(symbol, holding)]
            equityValue := acc.equityValue
            unrealizedGain := acc.unrealizedGain
            hasAllPrices := false }
      | none =>
        { entries := acc.entries ++ [(symbol, holding)]
          equityValue := acc.equityValue
          unrealizedGain := acc.unrealizedGain
          hasAllPrices := false }

/-- Accumulator of the time-deposit valuation loop (lines 1907-1930). -/
structure ValueAccTD where
  entries : List (String × HoldState)
  equityValue : ℚ
  timeDepositUnrealizedGain : ℚ

/-- Value one time-deposit holding (lines 1908-1930): same chain, but
without touching `hasAllPrices`. -/
def valueTimeDepositHolding (datePrices : Option (List (String × ℚ)))
    (latestQuotes : List (String × Quote)) (acc : ValueAccTD)
    (entry : String × HoldState) : ValueAccTD :=
  let symbol := entry.1
  let holding := entry.2
  let sameDay : Option ℚ :=
    match datePrices with
    | some m =>
      match alGet m symbol with
      | some p => if p > 0 then some p else none
      | none => none
    | none => none
  let priced : HoldState × ℚ :=
    match sameDay with
    | some price => ({ holding with lastKnownPrice := price }, price)
    | none =>
      if holding.lastKnownPrice > 0 then (holding, holding.lastKnownPrice)
      else
        match alGet latestQuotes symbol with
        | some quote => ({ holding with lastKnownPrice := quote.Close }, quote.Close)
        | none => (holding, 0)
  let holding := priced.1
  let price := priced.2
  if price > 0 then
    { entries := acc.entries ++ [(symbol, holding)]
      equityValue := acc.equityValue + holding.quantity * price
      timeDepositUnrealizedGain := acc.timeDepositUnrealizedGain +
        (holding.quantity * price - (holding.costChangeSum + holding.cumulativeRealizedReturn)) }
  else
    { entries := acc.entries ++ [(symbol, holding)]
      equityValue := acc.equityValue
      timeDepositUnrealizedGain := acc.timeDepositUnrealizedGain }

/-- What the per-date computation hands to the emission step. -/
structure PreEmit where
  equityValue : ℚ
  totalUnrealizedGain : ℚ
  egx30Value : Option ℚ
  hasValidEGX30 : Bool
  hasQuotes : Bool

/-- Everything a date does before emitting its point
(lines 1816-1958): apply the transactions of the date, value both
holding maps, apply the equity carry-forward, track the benchmark and
the last valid unrealized gain. -/
def tsPrepare (ctx : TSContext) (st : TSState) (date : String) : TSState × PreEmit :=
  let dateTransactions := ctx.accountTransactions.filter (fun t => t.Date = date)
  let st := dateTransactions.foldl applyTransaction st
  let datePrices := alGet ctx.quotesByDateAndSymbol date
  let racc := st.holdings.foldl (valueRegularHolding datePrices ctx.latestQuotes)
    { entries := [], equityValue := 0, unrealizedGain := 0, hasAllPrices := true }
  let tacc := st.timeDepositHoldings.foldl (valueTimeDepositHolding datePrices ctx.latestQuotes)
    { entries := [], equityValue := racc.equityValue, timeDepositUnrealizedGain := 0 }
  let st := { st with holdings := racc.entries, timeDepositHoldings := tacc.entries }
  let equityValue := tacc.equityValue
  let unrealizedGain := racc.unrealizedGain
  let carried : ℚ × ℚ × TSState :=
    if (¬ racc.hasAllPrices ∨ equityValue = 0) ∧ st.lastValidEquityValue > 0 then
      (st.lastValidEquityValue, st.lastValidUnrealizedGain, st)
    else if equityValue > 0 then
      (equityValue, unrealizedGain,
        { st with lastValidEquityValue := equityValue, lastValidUnrealizedGain := unrealizedGain })
    else
      (equityValue, unrealizedGain, st)
  let equityValue := carried.1
  let unrealizedGain := carried.2.1
  let st := carried.2.2
  let egx30Value := alGet ctx.egx30Map date
  let hasValidEGX30 := match egx30Value with
    | some v => v > 0
    | none => false
  let st := if hasValidEGX30 then { st with lastValidEgx30Value := egx30Value.getD 0 } else st
  let totalUnrealizedGain := unrealizedGain + tacc.timeDepositUnrealizedGain
  let st :=
    if ¬ totalUnrealizedGain = 0 then { st with lastValidUnrealizedGain := totalUnrealizedGain }
    else st
  let hasQuotes := match datePrices with
    | some m => ¬ m.isEmpty
    | none => false
  (st,
    { equityValue := equityValue
      totalUnrealizedGain := totalUnrealizedGain
      egx30Value := egx30Value
      hasValidEGX30 := hasValidEGX30
      hasQuotes := hasQuotes })

/-- The emission step of one date (lines 1964-1991): if the total value
computed for the date is exactly zero while a prior valid total value is
positive, repeat the last valid snapshot instead of emitting a drop to
zero; otherwise record the value as the new last valid total. -/
def tsEmit (ctx : TSContext) (date : String) (pre : PreEmit) (st : TSState) :
    TSState × TSPoint :=
  let totalValue := pre.equityValue + st.cashBalance
  if totalValue = 0 ∧ st.lastValidTotalValue > 0 then
    (st,
      { date := date
        cashValue := st.cashBalance
        equityValue := st.lastValidEquityValue
        totalValue := st.lastValidTotalValue
        realizedGain := st.totalRealizedGain
        unrealizedGain := st.lastValidUnrealizedGain
        egx30 := if pre.hasValidEGX30 then pre.egx30Value.getD 0 else st.lastValidEgx30Value
        hasQuotes := pre.hasQuotes
        account := some ctx.selectedAccount
        accountValues := none })
  else
    ({ st with lastValidTotalValue := totalValue },
      { date := date
        cashValue := st.cashBalance
        equityValue := pre.equityValue
        totalValue := totalValue
        realizedGain := st.totalRealizedGain
        unrealizedGain := pre.totalUnrealizedGain
        egx30 := if pre.hasValidEGX30 then pre.egx30Value.getD 0 else st.lastValidEgx30Value
        hasQuotes := pre.hasQuotes
        account := some ctx.selectedAccount
        accountValues := none })

/-- One full date iteration. -/
def tsStep (ctx : TSContext) (st : TSState) (date : String) : TSState × TSPoint :=
  let prepared := tsPrepare ctx st date
  tsEmit ctx date prepared.2 prepared.1

/-- Replay the sorted dates, emitting one point each. -/
def tsFold (ctx : TSContext) (st : TSState) : List String → List TSPoint
  | [] => []
  | date :: dates =>
    let stepped := tsStep ctx st date
    stepped.2 :: tsFold ctx stepped.1 dates

/-- The initial loop state (lines 1784-1813). -/
def tsInit : TSState :=
  { cashBalance := 0, holdings := [], timeDepositHoldings := [], totalRealizedGain := 0,
    lastValidEquityValue := 0, lastValidEgx30Value := 0, lastValidUnrealizedGain := 0,
    lastValidTotalValue := 0 }

/-- `processTimeSeriesData` (lines 1686-2008). The `quoteDates`
parameter is accepted and unused, as in the source, which recomputes the
quote dates itself. -/
def processTimeSeriesData (transactions : List Transaction) (quotes : List Quote)
    (quoteDates : List String) (selectedAccount : String)
    (latestQuotes : List (String × Quote)) : List TSPoint :=
  let _ := quoteDates
  let accountTransactions :=
    if selectedAccount = "all" then transactions
    else transactions.filter (fun t => t.Account = selectedAccount)
  let transactionDates :=
    dedupFirst (accountTransactions.filterMap
      (fun t => if ¬ t.Date = "" then some t.Date else none))
  let uniqueQuoteDates :=
    dedupFirst (quotes.filterMap (fun q => if ¬ q.Date = "" then some q.Date else none))
  let allDates := dedupFirst (transactionDates ++ uniqueQuoteDates)
  let egx30Map := quotes.foldl
    (fun m q => if q.Symbol = "EGX30" ∧ ¬ q.Date = "" ∧ q.Close > 0 then alSet m q.Date q.Close else m)
    []
  let quotesByDateAndSymbol := quotes.foldl
    (fun m q =>
      if ¬ q.Date = "" ∧ ¬ q.Symbol = "" then
        alSet m q.Date (alSet ((alGet m q.Date).getD []) q.Symbol q.Close)
      else m)
    []
  let sortedDates := sortBy strLeB allDates
  tsFold
    { accountTransactions := accountTransactions
      egx30Map := egx30Map
      quotesByDateAndSymbol := quotesByDateAndSymbol
      latestQuotes := latestQuotes
      selectedAccount := selectedAccount }
    tsInit sortedDates

/-! ## Account rollup (`mergeTimeSeriesData`, lines 1508-1554) -/

/-- The zero-initialized merged entry for a date (lines 1522-1532). -/
def mergeInit (date : String) : TSPoint :=
  { date := date, cashValue := 0, equityValue := 0, totalValue := 0, realizedGain := 0,
    unrealizedGain := 0, egx30 := 0, hasQuotes := false, account := none,
    accountValues := some [] }

/-- Merge the entry of one account series into the accumulator
(lines 1534-1550): sum the value fields, keep any truthy benchmark
value, OR the quote flags, and record the account total under its
name. -/
def mergeSeriesEntry (date : String) (merged : TSPoint) (series : List TSPoint) : TSPoint :=
  match series.find? (fun e => e.date = date) with
  | none => merged
  | some entry =>
    { merged with
      cashValue := merged.cashValue + entry.cashValue
      equityValue := merged.equityValue + entry.equityValue
      totalValue := merged.totalValue + entry.totalValue
      realizedGain := merged.realizedGain + entry.realizedGain
      unrealizedGain := merged.unrealizedGain + entry.unrealizedGain
      egx30 := if ¬ entry.egx30 = 0 then entry.egx30 else merged.egx30
      hasQuotes := merged.hasQuotes || entry.hasQuotes
      accountValues :=
        match entry.account with
        | some a =>
          if ¬ a = "" then some (alSet (merged.accountValues.getD []) a entry.totalValue)
          else merged.accountValues
        | none => merged.accountValues }

/-- The merged entry of one date across all account series. -/
def mergeAt (timeSeriesDataArray : List (List TSPoint)) (date : String) : TSPoint :=
  timeSeriesDataArray.foldl (mergeSeriesEntry date) (mergeInit date)

/-- Sorted union of the dates of all series (lines 1511-1518). -/
def mergedDates (timeSeriesDataArray : List (List TSPoint)) : List String :=
  sortBy strLeB (dedupFirst (timeSeriesDataArray.flatMap (fun series => series.map (fun e => e.date))))

/-- `mergeTimeSeriesData` (lines 1508-1554). -/
def mergeTimeSeriesData (timeSeriesDataArray : List (List TSPoint)) : List TSPoint :=
  if timeSeriesDataArray.isEmpty then []
  else (mergedDates timeSeriesDataArray).map (mergeAt timeSeriesDataArray)

/-! ## Whole pipeline (`processPortfolioData`, lines 1240-1505) -/

/-- The per-account record built at lines 1404-1416. -/
def processAccount (symbolMap : List (String × SymbolMeta))
    (latestQuotes : List (String × Quote)) (quotes : List Quote) (quoteDates : List String)
    (accountTransactionsMap : List (String × List Transaction)) (account : String) :
    AccountData :=
  let accountTransactions := (alGet accountTransactionsMap account).getD []
  let openTransactions := accountTransactions.filter (fun t => t.StatusTr = "Open Items")
  let closedTransactions := accountTransactions.filter (fun t =>
    t.StatusTr = "YTD Clear" ∨ t.StatusTr = "PYD Clear" ∨ t.StatusTr = "Cleared-RE" ∨
    t.StatusTr = "Cleared" ∨ t.StatusTr = "Clered -RE" ∨ t.StatusTr = "Time Deposit")
  let currentHoldings := processHoldings openTransactions symbolMap latestQuotes (some "Open Items") false
  let closedPositions := processHoldings closedTransactions symbolMap latestQuotes none true
  let timeDepositPositions :=
    (accountTransactions.filter (fun t => t.StatusTr = "Time Deposit")).foldl
      (fun acc t => alPush acc (t.Symbol ++ "-" ++ t.Account) t) []
  let timeDepositHoldings := processHoldings ((timeDepositPositions.map (fun p => p.2)).flatten)
    symbolMap latestQuotes (some "Time Deposit") false
  let timeSeriesData := processTimeSeriesData accountTransactions quotes quoteDates account latestQuotes
  let cashBalance := (accountTransactions.map (fun t => t.CashImpact)).sum
  let equityValue := (currentHoldings.map (fun h => h.Value)).sum
  let unrealizedGain := (currentHoldings.map (fun h => h.UnrealizedGain)).sum +
    (timeDepositHoldings.map (fun h => h.UnrealizedGain)).sum
  let realizedGain := (closedPositions.map (fun h => h.RealizedGain)).sum
  { name := account
    currentHoldings := currentHoldings
    closedPositions := closedPositions
    timeSeriesData := timeSeriesData
    summaryMetrics :=
      { totalValue := equityValue + cashBalance
        cashBalance := cashBalance
        equityValue := equityValue
        realizedGain := realizedGain
        unrealizedGain := unrealizedGain } }

/-- The empty-but-valid shell returned on any error
(lines 1489-1503). The source object literal carries no `quotes` and no
`latestQuotes` field. -/
def emptyPortfolioData : PortfolioData :=
  { accounts := []
    currentHoldings := []
    closedPositions := []
    timeSeriesData := []
    transactions := []
    quotes := none
    latestQuotes := none
    summaryMetrics :=
      { totalValue := 0, cashBalance := 0, equityValue := 0, realizedGain := 0,
        unrealizedGain := 0 } }

/-- The success path of the `try` block of `processPortfolioData`
(lines 1256-1479), with the log messages it emits. -/
def processPortfolioDataOk (transactionsText symbolsText quotesText : String)
    (selectedAccount : String) : PortfolioData × List String :=
  let log0 := ["Parsing transactions data...", "Parsing symbols data...", "Parsing quotes data..."]
    let transactions := (parseCSVTransactions transactionsText).map
      (fun t => if ¬ t.Date = "" then { t with Date := standardizeDate t.Date } else t)
    let symbols := parseCSVSymbols symbolsText
    let quotes := (parseCSVQuotes quotesText).map
      (fun q => if ¬ q.Date = "" then { q with Date := standardizeDate q.Date } else q)
    let symbolMap := symbolMapOf symbols
    let latestQuotes := latestQuotesOf quotes
    let quoteDates := quoteDatesOf quotes
    let accountTransactionsMap := transactions.foldl
      (fun m t =>
        let account := trimString t.Account
        if ¬ account = "" ∧ ¬ account = "all" ∧ ¬ account = "All Accounts" then
          alPush m account t
        else m)
      []
    let uniqueAccounts := sortBy strLeB (accountTransactionsMap.map (fun p => p.1))
    let accountsData := uniqueAccounts.map
      (processAccount symbolMap latestQuotes quotes quoteDates accountTransactionsMap)
    let selectedData :
        List Holding × List Holding × List TSPoint × ℚ × ℚ × ℚ × ℚ :=
      if selectedAccount = "all" then
        (accountsData.flatMap (fun acc => acc.currentHoldings),
         accountsData.flatMap (fun acc => acc.closedPositions),
         mergeTimeSeriesData (accountsData.map (fun acc => acc.timeSeriesData)),
         (accountsData.map (fun acc => acc.summaryMetrics.cashBalance)).sum,
         (accountsData.map (fun acc => acc.summaryMetrics.equityValue)).sum,
         (accountsData.map (fun acc => acc.summaryMetrics.realizedGain)).sum,
         (accountsData.map (fun acc => acc.summaryMetrics.unrealizedGain)).sum)
      else
        match accountsData.find? (fun acc => acc.name = selectedAccount) with
        | some selectedAccountData =>
          (selectedAccountData.currentHoldings,
           selectedAccountData.closedPositions,
           selectedAccountData.timeSeriesData,
           selectedAccountData.summaryMetrics.cashBalance,
           selectedAccountData.summaryMetrics.equityValue,
           selectedAccountData.summaryMetrics.realizedGain,
           selectedAccountData.summaryMetrics.unrealizedGain)
        | none => ([], [], [], 0, 0, 0, 0)
    let allCurrentHoldings := selectedData.1
    let allClosedPositions := selectedData.2.1
    let allTimeSeriesData := selectedData.2.2.1
    let totalCashBalance := selectedData.2.2.2.1
    let totalEquityValue := selectedData.2.2.2.2.1
    let totalRealizedGain := selectedData.2.2.2.2.2.1
    let totalUnrealizedGain := selectedData.2.2.2.2.2.2
  ({ accounts := accountsData
     currentHoldings := allCurrentHoldings
     closedPositions := allClosedPositions
     timeSeriesData := allTimeSeriesData
     transactions := transactions
     quotes := some quotes
     latestQuotes := some latestQuotes
     summaryMetrics :=
       { totalValue := totalEquityValue + totalCashBalance
         cashBalance := totalCashBalance
         equityValue := totalEquityValue
         realizedGain := totalRealizedGain
         unrealizedGain := totalUnrealizedGain } },
   log0)

/-- The body of the `try` block of `processPortfolioData`
(lines 1247-1479). The only `throw` is the missing-input check of lines
1249-1254; the error value carries the thrown message and the log so
far. -/
def processPortfolioDataCore (transactionsText symbolsText quotesText : String)
    (selectedAccount : String) : Except (String × List String) (PortfolioData × List String) :=
  if transactionsText = "" ∨ symbolsText = "" ∨ quotesText = "" then
    .error ("Missing required CSV data", ["Error: Missing required CSV data"])
  else
    .ok (processPortfolioDataOk transactionsText symbolsText quotesText selectedAccount)

/-- `processPortfolioData` (lines 1240-1505): the outermost `catch`
logs the message of any exception thrown inside the `try` block and
converts it to the empty-but-valid shell instead of propagating. -/
def processPortfolioData (transactionsText symbolsText quotesText : String)
    (selectedAccount : String) : PortfolioData × List String :=
  match processPortfolioDataCore transactionsText symbolsText quotesText selectedAccount with
  | .ok result => result
  | .error errAndLog =>
    (emptyPortfolioData,
     errAndLog.2 ++ ["Error in processPortfolioData: " ++ errAndLog.1])

/-! ## Current-holdings aggregated view
(`aggregatedHoldings`, src/unnamed/part_000 lines 32-53) -/

/-- One entry of the per-symbol aggregation of the current-holdings
view. `spread` is the first holding seen for the symbol whose fields
seed the entry; the accumulated numeric fields follow, and `AvgCost` and
`UnrealizedGainPct` are recomputed on every addition with unguarded
division (`none` marks a non-finite value). -/
structure AggHolding where
  spread : Holding
  Quantity : ℚ
  Value : ℚ
  Cost : ℚ
  UnrealizedGain : ℚ
  AvgCost : Option ℚ
  UnrealizedGainPct : Option ℚ
deriving DecidableEq

/-- One step of the reduce at part_000 lines 34-52. -/
def aggStep (acc : List (String × AggHolding)) (holding : Holding) : List (String × AggHolding) :=
  let current :=
    match alGet acc holding.Symbol with
    | some entry => entry
    | none =>
      { spread := holding, Quantity := 0, Value := 0, Cost := 0, UnrealizedGain := 0,
        AvgCost := some holding.AvgCost, UnrealizedGainPct := some holding.UnrealizedGainPct }
  let current :=
    { current with
      Quantity := current.Quantity + holding.Quantity
      Value := current.Value + holding.Value
      Cost := current.Cost + holding.Cost
      UnrealizedGain := current.UnrealizedGain + holding.UnrealizedGain }
  let current :=
    { current with
      AvgCost := jsDiv current.Cost current.Quantity
      UnrealizedGainPct := (jsDiv current.UnrealizedGain current.Cost).map (fun x => x * 100) }
  alSet acc holding.Symbol current

/-- `aggregatedHoldings` (part_000 lines 33-53), in the
`selectedAccount === "all"` branch: aggregate the filtered holdings by
symbol; `AvgCost` becomes `Cost / Quantity` and `UnrealizedGainPct`
becomes `(UnrealizedGain / Cost) * 100`, with no zero guard and no
absolute value on the denominator. -/
def aggregatedHoldings (filteredHoldings : List Holding) : List AggHolding :=
  (filteredHoldings.foldl aggStep []).map (fun p => p.2)

/-! ## Open-deposits valuator
(`openDeposits`, src/unnamed/part_003 lines 418-525) -/

/-- The priced result of one open-deposit group together with the
source of the price, mirroring the `priceSource` debug tag. -/
structure ResolvedPrice where
  price : ℚ
  priceSource : String
deriving DecidableEq

/-- The element a descending stable sort by date places first: a fold
keeping the strictly later quote, which on date ties keeps the earlier
element, as `sort((a, b) => dateB - dateA)[0]` does. -/
def latestOf (b : Quote) (l : List Quote) : Quote :=
  l.foldl (fun best q => if strLtB best.Date q.Date then q else best) b

/-- Price resolution of the open-deposits view (part_003 lines
466-500): first a latest-quote entry with a positive close, then a
scan of the full quotes list for the exact symbol taking the latest
date, then the net price of the first transaction of the group with
`1.0` when that is falsy. -/
def resolveOpenDepositPrice (latestQuotes : Option (List (String × Quote)))
    (quotes : Option (List Quote)) (exactSymbol : String)
    (group : List Transaction) : ResolvedPrice :=
  let fromLatest : Option ℚ :=
    match latestQuotes with
    | some lq =>
      match alGet lq exactSymbol with
      | some quote => if quote.Close > 0 then some quote.Close else none
      | none => none
    | none => none
  match fromLatest with
  | some price => { price := price, priceSource := "latestQuotes" }
  | none =>
    let matchingQuotes : List Quote :=
      (quotes.getD []).filter (fun q => q.Symbol = exactSymbol ∧ q.Close > 0)
    match matchingQuotes with
    | first :: rest =>
      let latestQuote := latestOf first (first :: rest)
      { price := latestQuote.Close, priceSource := "quotes array" }
    | [] =>
      let netPrice := ((group.get? 0).map (fun t => t.NetPrice)).getD 0
      { price := if netPrice = 0 then 1 else netPrice, priceSource := "transaction Net Price" }

/-- One open-deposit holding record (part_003 lines 446-521). -/
structure OpenDepositHolding where
  Symbol : String
  Name : String
  Account : String
  Quantity : ℚ
  AvgCost : ℚ
  Price : ℚ
  PriceSource : String
  Value : ℚ
  Cost : ℚ
  UnrealizedGain : ℚ
  UnrealizedGainPct : ℚ
  RealizedGain : ℚ
deriving DecidableEq

/-- The grouping key `` `${symbol}|${account}` `` of part_003 line 435. -/
def depositKeyOf (t : Transaction) : String :=
  t.Symbol ++ "|" ++ (if t.Account = "" then "Unknown" else t.Account)

/-- The group body of the open-deposits view (part_003 lines 446-521). -/
def mkOpenDepositHolding (latestQuotes : Option (List (String × Quote)))
    (quotes : Option (List Quote)) (key : String) (group : List Transaction) :
    OpenDepositHolding :=
  let quantity := (group.map (fun t => t.QtyChange)).sum
  let costChangeSum := (group.map (fun t => t.CostChange)).sum
  let cumulativeRealizedReturn := (group.map (fun t => t.Realized3)).sum
  let openCost := costChangeSum + cumulativeRealizedReturn
  let exactSymbol := ((group.get? 0).map (fun t => t.Symbol)).getD ""
  let parts := splitOnPred (fun c => c = '|') key
  let account := (parts.get? 1).getD ""
  let resolved := resolveOpenDepositPrice latestQuotes quotes exactSymbol group
  let price := resolved.price
  let value := quantity * price
  let unrealizedGain := value - openCost
  { Symbol := exactSymbol
    Name := ((group.get? 0).map (fun t => t.ShNameEng)).getD ""
    Account := account
    Quantity := quantity
    AvgCost := if ¬ quantity = 0 then openCost / quantity else 0
    Price := price
    PriceSource := resolved.priceSource
    Value := value
    Cost := openCost
    UnrealizedGain := unrealizedGain
    UnrealizedGainPct := if ¬ openCost = 0 then unrealizedGain / |openCost| * 100 else 0
    RealizedGain := cumulativeRealizedReturn }

/-- `openDeposits` (part_003 lines 418-525): filter the Open Deposits
transactions of the selected account, group by symbol and account, and
emit the groups with nonnegligible net quantity. -/
def openDepositsOf (transactions : List Transaction) (selectedAccount : String)
    (latestQuotes : Option (List (String × Quote))) (quotes : Option (List Quote)) :
    List OpenDepositHolding :=
  let openDepositsTransactions := transactions.filter
    (fun t => t.StatusTr = "Open Deposits" ∧ (selectedAccount = "all" ∨ t.Account = selectedAccount))
  let keys := dedupFirst (openDepositsTransactions.map depositKeyOf)
  let holdings := keys.filterMap (fun key =>
    let group := openDepositsTransactions.filter (fun t => depositKeyOf t = key)
    let holding := mkOpenDepositHolding latestQuotes quotes key group
    if |holding.Quantity| > 1 / 10000 then some holding else none)
  holdings

/-! ## Export and re-import of the raw inputs
(part_000 lines 330-449) -/

/-- The JSON envelope written by `handleExport` (part_000 lines
333-341): the three raw input texts, not the derived model. -/
structure ExportEnvelope where
  transactionsText : String
  symbolsText : String
  quotesText : String
deriving DecidableEq

/-- `handleImport` (part_000 lines 393-449): re-run the full pipeline
on the raw texts of the envelope with the `"all"` account selection,
rather than deserializing any cached output. -/
def reprocessEnvelope (envelope : ExportEnvelope) : PortfolioData :=
  (processPortfolioData envelope.transactionsText envelope.symbolsText envelope.quotesText "all").1

/-! ## Concrete inputs and records used by the claim theorems -/

/-- The two transactions of the worked example in spec §8. -/
def specExampleTransactions : List Transaction :=
  [{ Symbol := "X", Account := "A", Date := "2024-01-01", StatusTr := "Open Items",
     ShNameEng := "", QtyChange := 100, CostChange := 1000, Realized3 := 0,
     CashImpact := 0, NetPrice := 0, Db := 0 },
   { Symbol := "X", Account := "A", Date := "2024-01-02", StatusTr := "Open Items",
     ShNameEng := "", QtyChange := -40, CostChange := -400, Realized3 := 50,
     CashImpact := 0, NetPrice := 0, Db := 0 }]

/-- The quote of the worked example in spec §8. -/
def specExampleQuote : Quote := { Symbol := "X", Date := "2024-01-01", Close := 12 }

/-- The holding that `processHoldings` produces on the worked example. -/
def specExampleHolding : Holding :=
  { Symbol := "X", Account := "A", Name := "X", Sector := "Unknown", Status := "Open Items",
    Quantity := 60, Cost := 650, TotalCost := 600, AvgCost := 65 / 6, Price := 12,
    Value := 720, UnrealizedGain := 70, UnrealizedGainPct := 0, RealizedGain := 50,
    RealizedGainPct := 0, TotalReturn := 120, TotalReturnPct := 0, Db := 0, cashBalance := 0 }

/-- A closed pair of transactions whose net quantity is exactly zero. -/
def closedExampleTransactions : List Transaction :=
  [{ Symbol := "Y", Account := "B", Date := "2024-01-01", StatusTr := "YTD Clear",
     ShNameEng := "", QtyChange := 100, CostChange := 500, Realized3 := 0,
     CashImpact := -500, NetPrice := 5, Db := 500 },
   { Symbol := "Y", Account := "B", Date := "2024-01-02", StatusTr := "YTD Clear",
     ShNameEng := "", QtyChange := -100, CostChange := -500, Realized3 := 30,
     CashImpact := 530, NetPrice := 5, Db := -500 }]

/-- Two quotes for one symbol sharing one date. -/
def tieQuotes : List Quote :=
  [{ Symbol := "S", Date := "2024-01-01", Close := 10 },
   { Symbol := "S", Date := "2024-01-01", Close := 20 }]

/-- Three cash-only ledger events: +100, then -105, then +5. -/
def cashOnlyTransactions : List Transaction :=
  [{ Symbol := "Deposit", Account := "A", Date := "2024-01-01", StatusTr := "Open Items",
     ShNameEng := "", QtyChange := 0, CostChange := 0, Realized3 := 0,
     CashImpact := 100, NetPrice := 0, Db := 0 },
   { Symbol := "Deposit", Account := "A", Date := "2024-01-02", StatusTr := "Open Items",
     ShNameEng := "", QtyChange := 0, CostChange := 0, Realized3 := 0,
     CashImpact := -105, NetPrice := 0, Db := 0 },
   { Symbol := "Deposit", Account := "A", Date := "2024-01-03", StatusTr := "Open Items",
     ShNameEng := "", QtyChange := 0, CostChange := 0, Realized3 := 0,
     CashImpact := 5, NetPrice := 0, Db := 0 }]

/-- The first two points of the counterexample replay. -/
def tsPointDay1 : TSPoint :=
  { date := "2024-01-01", cashValue := 100, equityValue := 0, totalValue := 100,
    realizedGain := 0, unrealizedGain := 0, egx30 := 0, hasQuotes := false,
    account := some "A", accountValues := none }

def tsPointDay2 : TSPoint :=
  { date := "2024-01-02", cashValue := -5, equityValue := 0, totalValue := -5,
    realizedGain := 0, unrealizedGain := 0, egx30 := 0, hasQuotes := false,
    account := some "A", accountValues := none }

/-- A single open transaction carrying a recorded net price of 5, for a
symbol with no quote anywhere. -/
def netPriceTransactions : List Transaction :=
  [{ Symbol := "Z", Account := "A", Date := "2024-01-01", StatusTr := "Open Items",
     ShNameEng := "", QtyChange := 10, CostChange := 50, Realized3 := 0,
     CashImpact := 0, NetPrice := 5, Db := 0 }]

/-- A quote available in the latest-quote index. -/
def depositQuote : Quote := { Symbol := "D", Date := "2024-01-01", Close := 7 }

/-- A holding whose symbol group aggregates to Cost exactly 0. -/
def zeroCostHolding : Holding :=
  { Symbol := "W", Account := "A", Name := "W", Sector := "Unknown", Status := "Open Items",
    Quantity := 10, Cost := 0, TotalCost := -50, AvgCost := 0, Price := 1, Value := 10,
    UnrealizedGain := 5, UnrealizedGainPct := 0, RealizedGain := 0, RealizedGainPct := 0,
    TotalReturn := 5, TotalReturnPct := 0, Db := 0, cashBalance := 0 }

/-- A holding whose symbol group aggregates to a negative Cost. -/
def negCostHolding : Holding :=
  { Symbol := "V", Account := "A", Name := "V", Sector := "Unknown", Status := "Open Items",
    Quantity := 10, Cost := -100, TotalCost := -100, AvgCost := 0, Price := 1, Value := 10,
    UnrealizedGain := 50, UnrealizedGainPct := 0, RealizedGain := 0, RealizedGainPct := 0,
    TotalReturn := 50, TotalReturnPct := 0, Db := 0, cashBalance := 0 }

/-- The contribution of one account series to a numeric field of the
merged entry of a date: the field of its first entry on that date, or 0
when the series has no entry there. -/
def seriesContrib (f : TSPoint → ℚ) (date : String) (series : List TSPoint) : ℚ :=
  match series.find? (fun e => e.date = date) with
  | some entry => f entry
  | none => 0

/-- Whether one account series asserts `hasQuotes` on a date. -/
def seriesHasQuotes (date : String) (series : List TSPoint) : Bool :=
  match series.find? (fun e => e.date = date) with
  | some entry => entry.hasQuotes
  | none => false

/-- The per-account point of the two-account worked example. -/
def accountPoint (name : String) : TSPoint :=
  { date := "2024-01-01", cashValue := 0, equityValue := 100, totalValue := 100,
    realizedGain := 0, unrealizedGain := 0, egx30 := 0, hasQuotes := true,
    account := some name, accountValues := none }

/-! ## Helper lemmas -/

theorem insertSorted_perm {α : Type} (le : α → α → Bool) (x : α) (l : List α) :
    (insertSorted le x l).Perm (x :: l) := by
  induction l with
  | nil => simp [insertSorted]
  | cons y ys ih =>
    simp only [insertSorted]
    split
    · exact (ih.cons y).trans (List.Perm.swap x y ys)
    · exact List.Perm.refl _

theorem foldl_insertSorted_perm {α : Type} (le : α → α → Bool) (l acc : List α) :
    (l.foldl (fun acc x => insertSorted le x acc) acc).Perm (acc ++ l) := by
  induction l generalizing acc with
  | nil => simp
  | cons x xs ih =>
    simp only [List.foldl_cons]
    refine (ih (insertSorted le x acc)).trans ?_
    exact ((insertSorted_perm le x acc).append_right xs).trans List.perm_middle.symm

theorem sortBy_perm {α : Type} (le : α → α → Bool) (l : List α) :
    (sortBy le l).Perm l := by
  simpa [sortBy] using foldl_insertSorted_perm le l []

theorem sum_map_sortBy {α : Type} (le : α → α → Bool) (l : List α) (f : α → ℚ) :
    ((sortBy le l).map f).sum = (l.map f).sum :=
  ((sortBy_perm le l).map f).sum_eq

theorem mem_sortBy {α : Type} (le : α → α → Bool) (l : List α) (a : α) :
    a ∈ sortBy le l ↔ a ∈ l :=
  (sortBy_perm le l).mem_iff

/-- The two invariant-bearing fields of a group holding: OpenCost is the
sum of the cost changes plus the sum of the realized returns. -/
theorem mkHolding_Cost (symbolMap : List (String × SymbolMeta)) (lq : List (String × Quote))
    (statusType : Option String) (inc : Bool) (cb : ℚ) (k : String) (g : List Transaction) :
    (mkHolding symbolMap lq statusType inc cb k g).Cost =
      (g.map (fun t => t.CostChange)).sum + (g.map (fun t => t.Realized3)).sum := by
  simp [mkHolding, sum_map_sortBy]

/-- `processHoldings` as the filtered map over group keys. -/
theorem processHoldings_eq (txs : List Transaction) (m : List (String × SymbolMeta))
    (lq : List (String × Quote)) (st : Option String) (inc : Bool) :
    processHoldings txs m lq st inc =
      ((groupKeys txs).filter (fun k => inc ∨ |netQty txs k| > 1 / 10000)).map
        (fun k => mkHolding m lq st inc (cashBalanceOf txs) k (groupFor txs k)) := by
  unfold processHoldings
  rw [List.map_map]
  congr 1

/-- The current-holdings call (`includeZeroQuantity = false`) keeps
exactly the keys with nonnegligible net quantity. -/
theorem processHoldings_false_eq (txs : List Transaction) (m : List (String × SymbolMeta))
    (lq : List (String × Quote)) (st : Option String) :
    processHoldings txs m lq st false =
      ((groupKeys txs).filter (fun k => |netQty txs k| > 1 / 10000)).map
        (fun k => mkHolding m lq st false (cashBalanceOf txs) k (groupFor txs k)) := by
  rw [processHoldings_eq]
  congr 1
  apply List.filter_congr
  intro a _
  simp

/-- The closed-positions call (`includeZeroQuantity = true`) keeps every
group key. -/
theorem processHoldings_true_eq (txs : List Transaction) (m : List (String × SymbolMeta))
    (lq : List (String × Quote)) (st : Option String) :
    processHoldings txs m lq st true =
      (groupKeys txs).map
        (fun k => mkHolding m lq st true (cashBalanceOf txs) k (groupFor txs k)) := by
  rw [processHoldings_eq]
  congr 1
  apply List.filter_eq_self.mpr
  intro a _
  simp

/-! ## Concrete inputs used by the witnesses -/

/-! ## Claim C1 -/

/-- Claim C1: every holding produced by the position aggregator has
Cost (OpenCost) equal to the sum of the Cost change fields of its group
plus the sum of its Realized3 fields, and on the worked example of the
spec (two transactions for symbol X in account A with quantity changes
100 and -40, cost changes 1000 and -400, realized 0 and 50, quote close
12) the result is Quantity 60, OpenCost 650, Value 720, UnrealizedGain
70, RealizedGain 50. -/
theorem openCost_invariant (txs : List Transaction) (symbolMap : List (String × SymbolMeta))
    (lq : List (String × Quote)) (statusType : Option String) (inc : Bool)
    (h : Holding) (hmem : h ∈ processHoldings txs symbolMap lq statusType inc) :
    (∃ k, k ∈ groupKeys txs ∧
      h.Cost = ((groupFor txs k).map (fun t => t.CostChange)).sum +
        ((groupFor txs k).map (fun t => t.Realized3)).sum) ∧
    (processHoldings specExampleTransactions [] (latestQuotesOf [specExampleQuote])
        (some "Open Items") false).map
      (fun h => (h.Quantity, h.Cost, h.Value, h.UnrealizedGain, h.RealizedGain)) =
      [(60, 650, 720, 70, 50)] := by
  constructor
  · rw [processHoldings_eq] at hmem
    obtain ⟨k, hk, rfl⟩ := List.mem_map.mp hmem
    exact ⟨k, (List.mem_filter.mp hk).1, mkHolding_Cost _ _ _ _ _ _ _⟩
  · norm_num +decide [processHoldings, mkHolding, groupKeys, groupFor, keyOf, netQty,
      cashBalanceOf, dedupFirst, specExampleTransactions, specExampleQuote, latestQuotesOf, latestQuoteStep,
      alGet, alSet, sortBy, insertSorted, strLeB, strLtB, lexLt, splitOnPred, splitOnPred.go]

/-- Witness for C1 at the worked example of the spec. -/
theorem openCost_invariant_witness :
    (∃ k, k ∈ groupKeys specExampleTransactions ∧
      specExampleHolding.Cost =
        ((groupFor specExampleTransactions k).map (fun t => t.CostChange)).sum +
        ((groupFor specExampleTransactions k).map (fun t => t.Realized3)).sum) ∧
    (processHoldings specExampleTransactions [] (latestQuotesOf [specExampleQuote])
        (some "Open Items") false).map
      (fun h => (h.Quantity, h.Cost, h.Value, h.UnrealizedGain, h.RealizedGain)) =
      [(60, 650, 720, 70, 50)] :=
  openCost_invariant specExampleTransactions [] (latestQuotesOf [specExampleQuote])
    (some "Open Items") false specExampleHolding
    (by
      norm_num +decide [processHoldings, mkHolding, groupKeys, groupFor, keyOf, netQty,
        cashBalanceOf, dedupFirst, specExampleTransactions, specExampleQuote, specExampleHolding,
        latestQuotesOf, latestQuoteStep, alGet, alSet, sortBy, insertSorted, strLeB, strLtB, lexLt, splitOnPred,
        splitOnPred.go]
      exact (abs_of_nonneg (by norm_num)).symm)

/-! ## Claim C2 -/

/-- In the closed-positions call the unrealized gain is forced to zero
and total return collapses to the realized gain. -/
theorem mkHolding_closed_fields (m : List (String × SymbolMeta)) (lq : List (String × Quote))
    (st : Option String) (cb : ℚ) (k : String) (g : List Transaction) :
    (mkHolding m lq st true cb k g).UnrealizedGain = 0 ∧
    (mkHolding m lq st true cb k g).TotalReturn = (mkHolding m lq st true cb k g).RealizedGain := by
  constructor <;> simp [mkHolding]

/-- Claim C2: a group whose absolute net quantity is below `1e-4` is
excluded from the current-holdings view (its key does not survive the
quantity filter of the `includeZeroQuantity = false` call) but is
included in the closed-positions view (`includeZeroQuantity = true`),
and every holding of the closed-positions view has UnrealizedGain
forced to 0 and TotalReturn exactly equal to RealizedGain. -/
theorem zero_quantity_closed_view (txs : List Transaction) (m : List (String × SymbolMeta))
    (lq : List (String × Quote)) (st : Option String) (k : String)
    (hk : k ∈ groupKeys txs) (hq : |netQty txs k| < 1 / 10000) :
    k ∉ (groupKeys txs).filter (fun key => |netQty txs key| > 1 / 10000) ∧
    processHoldings txs m lq st false =
      ((groupKeys txs).filter (fun key => |netQty txs key| > 1 / 10000)).map
        (fun key => mkHolding m lq st false (cashBalanceOf txs) key (groupFor txs key)) ∧
    mkHolding m lq st true (cashBalanceOf txs) k (groupFor txs k) ∈
      processHoldings txs m lq st true ∧
    ∀ h ∈ processHoldings txs m lq st true,
      h.UnrealizedGain = 0 ∧ h.TotalReturn = h.RealizedGain := by
  refine ⟨?_, processHoldings_false_eq txs m lq st, ?_, ?_⟩
  · intro hmem
    have hgt := (List.mem_filter.mp hmem).2
    simp only [decide_eq_true_eq] at hgt
    exact absurd hgt (lt_asymm hq)
  · rw [processHoldings_true_eq]
    exact List.mem_map_of_mem _ hk
  · intro h hmem
    rw [processHoldings_true_eq] at hmem
    obtain ⟨k2, _, rfl⟩ := List.mem_map.mp hmem
    exact mkHolding_closed_fields m lq st (cashBalanceOf txs) k2 (groupFor txs k2)

/-- Witness for C2 at a concrete fully-closed group. -/
theorem zero_quantity_closed_view_witness :
    "Y-B" ∉ (groupKeys closedExampleTransactions).filter
        (fun key => |netQty closedExampleTransactions key| > 1 / 10000) ∧
    processHoldings closedExampleTransactions [] [] none false =
      ((groupKeys closedExampleTransactions).filter
          (fun key => |netQty closedExampleTransactions key| > 1 / 10000)).map
        (fun key => mkHolding [] [] none false (cashBalanceOf closedExampleTransactions) key
          (groupFor closedExampleTransactions key)) ∧
    mkHolding [] [] none true (cashBalanceOf closedExampleTransactions) "Y-B"
        (groupFor closedExampleTransactions "Y-B") ∈
      processHoldings closedExampleTransactions [] [] none true ∧
    ∀ h ∈ processHoldings closedExampleTransactions [] [] none true,
      h.UnrealizedGain = 0 ∧ h.TotalReturn = h.RealizedGain :=
  zero_quantity_closed_view closedExampleTransactions [] [] none "Y-B"
    (by decide)
    (by norm_num +decide [netQty, groupFor, keyOf, closedExampleTransactions])

/-! ## Claim C7 -/

theorem lexLt_irrefl (a : List Char) : lexLt a a = false := by
  induction a with
  | nil => rfl
  | cons x xs ih => simp [lexLt, ih]

theorem lexLt_trans (a : List Char) : ∀ b c, lexLt a b = true → lexLt b c = true →
    lexLt a c = true := by
  induction a with
  | nil =>
    intro b c hab hbc
    cases b with
    | nil => simp [lexLt] at hab
    | cons y ys =>
      cases c with
      | nil => simp [lexLt] at hbc
      | cons z zs => simp [lexLt]
  | cons x xs ih =>
    intro b c hab hbc
    cases b with
    | nil => simp [lexLt] at hab
    | cons y ys =>
      cases c with
      | nil => simp [lexLt] at hbc
      | cons z zs =>
        simp only [lexLt] at hab hbc ⊢
        rcases Nat.lt_trichotomy x.toNat y.toNat with hxy | hxy | hxy
        · rcases Nat.lt_trichotomy y.toNat z.toNat with hyz | hyz | hyz
          · have hxz : x.toNat < z.toNat := Nat.lt_trans hxy hyz
            simp [hxz]
          · have hxz : x.toNat < z.toNat := by omega
            simp [hxz]
          · simp [Nat.lt_asymm hyz, Nat.ne_of_gt hyz] at hbc
        · rcases Nat.lt_trichotomy y.toNat z.toNat with hyz | hyz | hyz
          · have hxz : x.toNat < z.toNat := by omega
            simp [hxz]
          · have hxz1 : ¬ x.toNat < z.toNat := by omega
            have hxz2 : x.toNat = z.toNat := by omega
            rw [if_neg hxz1, if_pos hxz2]
            exact ih ys zs (by simpa [hxy] using hab) (by simpa [hyz] using hbc)
          · simp [Nat.lt_asymm hyz, Nat.ne_of_gt hyz] at hbc
        · simp [Nat.lt_asymm hxy, Nat.ne_of_gt hxy] at hab

theorem find?_update_self {β : Type} (ps : List (String × β)) (k : String) (v : β) :
    (ps.map (fun p => if p.1 = k then (k, v) else p)).find? (fun p => p.1 = k) =
      if ps.any (fun p => p.1 = k) then some (k, v) else none := by
  induction ps with
  | nil => simp
  | cons p rest ih =>
    simp only [List.map_cons, List.any_cons]
    by_cases hp : p.1 = k
    · rw [if_pos hp, List.find?_cons_of_pos _ (by simp)]
      simp [hp]
    · rw [if_neg hp, List.find?_cons_of_neg _ (by simp [hp]), ih]
      simp only [decide_eq_false hp, Bool.false_or]

theorem find?_update_ne {β : Type} (ps : List (String × β)) (k k2 : String) (v : β)
    (hne : ¬ k = k2) :
    (ps.map (fun p => if p.1 = k then (k, v) else p)).find? (fun p => p.1 = k2) =
      ps.find? (fun p => p.1 = k2) := by
  induction ps with
  | nil => simp
  | cons p rest ih =>
    simp only [List.map_cons]
    by_cases hp : p.1 = k
    · rw [if_pos hp, List.find?_cons_of_neg _ (by simp [hne]),
        List.find?_cons_of_neg _ (by simp [hp, hne]), ih]
    · rw [if_neg hp]
      by_cases hp2 : p.1 = k2
      · rw [List.find?_cons_of_pos _ (by simp [hp2]), List.find?_cons_of_pos _ (by simp [hp2])]
      · rw [List.find?_cons_of_neg _ (by simp [hp2]), List.find?_cons_of_neg _ (by simp [hp2]),
          ih]

theorem alGet_alSet_self {β : Type} (m : List (String × β)) (k : String) (v : β) :
    alGet (alSet m k v) k = some v := by
  simp only [alSet, alGet]
  split <;> rename_i hany
  · rw [find?_update_self]
    simp [hany]
  · rw [List.find?_append]
    have hnone : m.find? (fun p => decide (p.1 = k)) = none := by
      rw [List.find?_eq_none]
      intro x hx
      by_contra hcon
      exact hany (List.any_eq_true.mpr ⟨x, hx, by simpa using hcon⟩)
    simp [hnone, List.find?]

theorem alGet_alSet_ne {β : Type} (m : List (String × β)) (k k2 : String) (v : β)
    (hne : ¬ k = k2) : alGet (alSet m k v) k2 = alGet m k2 := by
  simp only [alSet, alGet]
  split
  · rw [find?_update_ne m k k2 v hne]
  · rw [List.find?_append]
    simp [List.find?, hne]

theorem strLtB_irrefl (a : String) : strLtB a a = false := lexLt_irrefl a.data

theorem strLtB_trans (a b c : String) (h1 : strLtB a b = true) (h2 : strLtB b c = true) :
    strLtB a c = true := lexLt_trans a.data b.data c.data h1 h2

/-- Invariant of the latest-quote fold: the stored quote of a symbol is
one of the quotes seen so far for that symbol, no seen quote of that
symbol has a strictly later date, and a symbol with no stored entry has
not been seen at all. -/
theorem latestQuotesOf_invariant (qs : List Quote) :
    ∀ (m : List (String × Quote)) (seen : List Quote),
      (∀ s : String,
        (∀ q, alGet m s = some q → q ∈ seen ∧ q.Symbol = s ∧
          ∀ q2 ∈ seen, q2.Symbol = s → strLtB q.Date q2.Date = false) ∧
        (alGet m s = none → ∀ q2 ∈ seen, ¬ q2.Symbol = s)) →
      ∀ s : String,
        (∀ q, alGet (qs.foldl latestQuoteStep m) s = some q → q ∈ seen ++ qs ∧ q.Symbol = s ∧
          ∀ q2 ∈ seen ++ qs, q2.Symbol = s → strLtB q.Date q2.Date = false) ∧
        (alGet (qs.foldl latestQuoteStep m) s = none → ∀ q2 ∈ seen ++ qs, ¬ q2.Symbol = s) := by
  induction qs with
  | nil => intro m seen hinv s; simpa using hinv s
  | cons q rest ih =>
    intro m seen hinv s
    have hstep : ∀ s2 : String,
        (∀ q3, alGet (latestQuoteStep m q) s2 = some q3 → q3 ∈ seen ++ [q] ∧ q3.Symbol = s2 ∧
          ∀ q2 ∈ seen ++ [q], q2.Symbol = s2 → strLtB q3.Date q2.Date = false) ∧
        (alGet (latestQuoteStep m q) s2 = none → ∀ q2 ∈ seen ++ [q], ¬ q2.Symbol = s2) := by
      intro s2
      by_cases hs : q.Symbol = s2
      · subst hs
        unfold latestQuoteStep
        cases halget : alGet m q.Symbol with
        | none =>
          simp only [halget]
          constructor
          · intro q3 hq3
            rw [alGet_alSet_self] at hq3
            obtain rfl : q = q3 := by injection hq3
            refine ⟨by simp, rfl, ?_⟩
            intro q2 hq2 hsym
            rcases List.mem_append.mp hq2 with hq2 | hq2
            · exact absurd hsym ((hinv q.Symbol).2 halget q2 hq2)
            · obtain rfl : q2 = q := by simpa using hq2
              exact strLtB_irrefl _
          · intro hnone
            rw [alGet_alSet_self] at hnone
            exact absurd hnone (by simp)
        | some existing =>
          simp only [halget]
          by_cases hlt : strLtB existing.Date q.Date = true
          · rw [if_pos hlt]
            constructor
            · intro q3 hq3
              rw [alGet_alSet_self] at hq3
              obtain rfl : q = q3 := by injection hq3
              refine ⟨by simp, rfl, ?_⟩
              intro q2 hq2 hsym
              rcases List.mem_append.mp hq2 with hq2 | hq2
              · by_contra hcon
                have hfalse := ((hinv q.Symbol).1 existing halget).2.2 q2 hq2 hsym
                have htrans := strLtB_trans existing.Date q.Date q2.Date hlt
                  (by simpa using hcon)
                rw [hfalse] at htrans
                exact Bool.noConfusion htrans
              · obtain rfl : q2 = q := by simpa using hq2
                exact strLtB_irrefl _
            · intro hnone
              rw [alGet_alSet_self] at hnone
              exact absurd hnone (by simp)
          · rw [if_neg hlt]
            constructor
            · intro q3 hq3
              rw [halget] at hq3
              obtain rfl : existing = q3 := by injection hq3
              obtain ⟨hmem, hsym, hall⟩ := (hinv q.Symbol).1 existing halget
              refine ⟨List.mem_append.mpr (Or.inl hmem), hsym, ?_⟩
              intro q2 hq2 hsym2
              rcases List.mem_append.mp hq2 with hq2 | hq2
              · exact hall q2 hq2 hsym2
              · obtain rfl : q2 = q := by simpa using hq2
                simpa using hlt
            · intro hnone
              rw [halget] at hnone
              exact absurd hnone (by simp)
      · have halget2 : alGet (latestQuoteStep m q) s2 = alGet m s2 := by
          unfold latestQuoteStep
          cases halget : alGet m q.Symbol with
          | none =>
            simp only [halget]
            exact alGet_alSet_ne m q.Symbol s2 q hs
          | some existing =>
            simp only [halget]
            by_cases hlt : strLtB existing.Date q.Date = true
            · rw [if_pos hlt]
              exact alGet_alSet_ne m q.Symbol s2 q hs
            · rw [if_neg hlt]
        rw [halget2]
        constructor
        · intro q3 hq3
          obtain ⟨hmem, hsym, hall⟩ := (hinv s2).1 q3 hq3
          refine ⟨List.mem_append.mpr (Or.inl hmem), hsym, ?_⟩
          intro q2 hq2 hsym2
          rcases List.mem_append.mp hq2 with hq2 | hq2
          · exact hall q2 hq2 hsym2
          · obtain rfl : q2 = q := by simpa using hq2
            exact absurd hsym2 hs
        · intro hnone q2 hq2
          rcases List.mem_append.mp hq2 with hq2 | hq2
          · exact (hinv s2).2 hnone q2 hq2
          · obtain rfl : q2 = q := by simpa using hq2
            exact hs
    have := ih (latestQuoteStep m q) (seen ++ [q]) hstep s
    simpa using this

/-- Counterexample to C7 as stated: when two quotes of a symbol share
the maximum date, the quote seen LATER in input order is not the one
retained; the strict `>` comparison keeps the first-seen quote. -/
theorem latestQuotes_tie_counterexample :
    ¬ alGet (latestQuotesOf tieQuotes) "S" =
        some { Symbol := "S", Date := "2024-01-01", Close := 20 } ∧
    alGet (latestQuotesOf tieQuotes) "S" =
      some { Symbol := "S", Date := "2024-01-01", Close := 10 } := by
  constructor <;>
    norm_num +decide [latestQuotesOf, latestQuoteStep, tieQuotes, alGet, alSet, strLtB, lexLt]

/-- Claim C7 (amended): the latest-quote index maps each symbol to a
quote of that symbol with the maximum date among the quotes of the
input for that symbol (and has no entry only when the symbol never
occurs); when two quotes for a symbol share the maximum date, the one
seen EARLIER in input order is retained, because the strict `>`
comparison never replaces the stored quote on an equal date. -/
theorem latestQuotes_max_date (qs : List Quote) (s : String) :
    (∀ q, alGet (latestQuotesOf qs) s = some q → q ∈ qs ∧ q.Symbol = s ∧
      ∀ q2 ∈ qs, q2.Symbol = s → strLtB q.Date q2.Date = false) ∧
    (alGet (latestQuotesOf qs) s = none → ∀ q2 ∈ qs, ¬ q2.Symbol = s) ∧
    alGet (latestQuotesOf tieQuotes) "S" =
      some { Symbol := "S", Date := "2024-01-01", Close := 10 } := by
  have hempty : ∀ s2 : String,
      (∀ q, alGet ([] : List (String × Quote)) s2 = some q → q ∈ ([] : List Quote) ∧
        q.Symbol = s2 ∧ ∀ q2 ∈ ([] : List Quote), q2.Symbol = s2 →
          strLtB q.Date q2.Date = false) ∧
      (alGet ([] : List (String × Quote)) s2 = none → ∀ q2 ∈ ([] : List Quote),
        ¬ q2.Symbol = s2) := by
    intro s2
    constructor
    · intro q hq
      simp [alGet] at hq
    · intro _ q2 hq2
      simp at hq2
  have h := latestQuotesOf_invariant qs [] [] hempty s
  refine ⟨by simpa [latestQuotesOf] using h.1, by simpa [latestQuotesOf] using h.2,
    latestQuotes_tie_counterexample.2⟩

/-- Witness for C7 (amended) at the concrete tie input. -/
theorem latestQuotes_max_date_witness :
    ({ Symbol := "S", Date := "2024-01-01", Close := 10 } : Quote) ∈ tieQuotes ∧
    ({ Symbol := "S", Date := "2024-01-01", Close := 10 } : Quote).Symbol = "S" ∧
    ∀ q2 ∈ tieQuotes, q2.Symbol = "S" →
      strLtB ({ Symbol := "S", Date := "2024-01-01", Close := 10 } : Quote).Date q2.Date =
        false :=
  (latestQuotes_max_date tieQuotes "S").1 _
    (by norm_num +decide [latestQuotesOf, latestQuoteStep, tieQuotes, alGet, alSet, strLtB, lexLt])

/-! ## Claim C3 -/

theorem applyTransaction_lastValidTotalValue (st : TSState) (t : Transaction) :
    (applyTransaction st t).lastValidTotalValue = st.lastValidTotalValue := by
  unfold applyTransaction
  split
  · dsimp only
    split <;> rfl
  · rfl

theorem foldl_applyTransaction_lastValidTotalValue (ts : List Transaction) (st : TSState) :
    (ts.foldl applyTransaction st).lastValidTotalValue = st.lastValidTotalValue := by
  induction ts generalizing st with
  | nil => rfl
  | cons t rest ih =>
    rw [List.foldl_cons, ih, applyTransaction_lastValidTotalValue]

/-- Nothing before the emission step touches the last valid total
value. -/
theorem tsPrepare_lastValidTotalValue (ctx : TSContext) (st : TSState) (date : String) :
    (tsPrepare ctx st date).1.lastValidTotalValue = st.lastValidTotalValue := by
  unfold tsPrepare
  dsimp only
  repeat' split
  all_goals simp [foldl_applyTransaction_lastValidTotalValue]

/-- The emission step: an emitted positive total value leaves a
positive last valid total value behind, and a positive last valid total
value rules out emitting an exact zero. -/
theorem tsEmit_totalValue (ctx : TSContext) (date : String) (pre : PreEmit) (st : TSState) :
    (0 < (tsEmit ctx date pre st).2.totalValue →
      0 < (tsEmit ctx date pre st).1.lastValidTotalValue) ∧
    (0 < st.lastValidTotalValue → ¬ (tsEmit ctx date pre st).2.totalValue = 0) := by
  unfold tsEmit
  dsimp only
  split <;> rename_i hcond
  · exact ⟨fun _ => hcond.2, fun _ => ne_of_gt hcond.2⟩
  · rw [not_and_or] at hcond
    constructor
    · intro hpos
      exact hpos
    · intro hpos
      rcases hcond with hcond | hcond
      · exact hcond
      · exact absurd hpos hcond

theorem tsStep_totalValue (ctx : TSContext) (st : TSState) (date : String) :
    (0 < (tsStep ctx st date).2.totalValue → 0 < (tsStep ctx st date).1.lastValidTotalValue) ∧
    (0 < st.lastValidTotalValue → ¬ (tsStep ctx st date).2.totalValue = 0) := by
  unfold tsStep
  dsimp only
  constructor
  · exact (tsEmit_totalValue ctx date (tsPrepare ctx st date).2 (tsPrepare ctx st date).1).1
  · intro hpos
    refine (tsEmit_totalValue ctx date (tsPrepare ctx st date).2 (tsPrepare ctx st date).1).2 ?_
    rw [tsPrepare_lastValidTotalValue]
    exact hpos

/-- Along the replay, a point with positive total value is never
followed by a point whose total value is exactly zero. -/
theorem tsFold_no_regression (ctx : TSContext) :
    ∀ (dates : List String) (st : TSState) (i : Nat) (p q : TSPoint),
      (tsFold ctx st dates).get? i = some p →
      (tsFold ctx st dates).get? (i + 1) = some q →
      0 < p.totalValue → ¬ q.totalValue = 0 := by
  intro dates
  induction dates with
  | nil =>
    intro st i p q hp hq hpos
    simp [tsFold] at hp
  | cons d rest ih =>
    intro st i p q hp hq hpos
    rw [show tsFold ctx st (d :: rest) =
      (tsStep ctx st d).2 :: tsFold ctx (tsStep ctx st d).1 rest from rfl] at hp hq
    cases i with
    | zero =>
      simp only [List.get?] at hp hq
      obtain rfl : (tsStep ctx st d).2 = p := by injection hp
      cases rest with
      | nil => simp [tsFold] at hq
      | cons d2 rest2 =>
        rw [show tsFold ctx (tsStep ctx st d).1 (d2 :: rest2) =
          (tsStep ctx (tsStep ctx st d).1 d2).2 ::
            tsFold ctx (tsStep ctx (tsStep ctx st d).1 d2).1 rest2 from rfl] at hq
        simp only [List.get?] at hq
        obtain rfl : (tsStep ctx (tsStep ctx st d).1 d2).2 = q := by injection hq
        exact (tsStep_totalValue ctx (tsStep ctx st d).1 d2).2
          ((tsStep_totalValue ctx st d).1 hpos)
    | succ i2 =>
      simp only [List.get?] at hp hq
      exact ih (tsStep ctx st d).1 i2 p q hp hq hpos

/-- Claim C3 (amended): in the emitted time series, if the point of the
immediately preceding date has strictly positive totalValue, the next
point never has totalValue exactly zero — the emission step replaces a
computed zero total by the last valid positive snapshot. The claim as
frozen quantifies over any earlier date, which fails when an
intermediate total is negative (see the counterexample). -/
theorem timeSeries_no_regression (transactions : List Transaction) (quotes : List Quote)
    (quoteDates : List String) (selectedAccount : String)
    (latestQuotes : List (String × Quote)) (i : Nat) (p q : TSPoint)
    (hp : (processTimeSeriesData transactions quotes quoteDates selectedAccount
      latestQuotes).get? i = some p)
    (hq : (processTimeSeriesData transactions quotes quoteDates selectedAccount
      latestQuotes).get? (i + 1) = some q)
    (hpos : 0 < p.totalValue) : ¬ q.totalValue = 0 := by
  unfold processTimeSeriesData at hp hq
  exact tsFold_no_regression _ _ _ i p q hp hq hpos

/-- Counterexample to C3 as frozen: the emitted total values are
100, -5, 0 — the total value at the first date is positive, yet the
third date emits exactly 0, because the intermediate value -5 resets
the last valid total and the carry-forward guard only checks
`lastValidTotalValue > 0`. -/
theorem timeSeries_regression_counterexample :
    (processTimeSeriesData cashOnlyTransactions [] [] "A" []).map
      (fun point => point.totalValue) = [100, -5, 0] ∧
    ((processTimeSeriesData cashOnlyTransactions [] [] "A" []).get? 0).map
      (fun point => point.totalValue) = some 100 ∧
    ((processTimeSeriesData cashOnlyTransactions [] [] "A" []).get? 2).map
      (fun point => point.totalValue) = some 0 := by
  refine ⟨?_, ?_, ?_⟩ <;>
    norm_num +decide [processTimeSeriesData, tsFold, tsStep, tsPrepare, tsEmit, tsInit,
      applyTransaction, valueRegularHolding, valueTimeDepositHolding, excludedSymbols,
      alGet, alSet, alDelete, dedupFirst, sortBy, insertSorted, strLeB, strLtB, lexLt,
      cashOnlyTransactions]

/-- Witness for C3 (amended): the positive point of the first date is
followed by a nonzero total value. -/
theorem timeSeries_no_regression_witness : ¬ tsPointDay2.totalValue = 0 :=
  timeSeries_no_regression cashOnlyTransactions [] [] "A" [] 0 tsPointDay1 tsPointDay2
    (by norm_num +decide [processTimeSeriesData, tsFold, tsStep, tsPrepare, tsEmit, tsInit,
      applyTransaction, valueRegularHolding, valueTimeDepositHolding, excludedSymbols,
      alGet, alSet, alDelete, dedupFirst, sortBy, insertSorted, strLeB, strLtB, lexLt,
      cashOnlyTransactions, tsPointDay1])
    (by norm_num +decide [processTimeSeriesData, tsFold, tsStep, tsPrepare, tsEmit, tsInit,
      applyTransaction, valueRegularHolding, valueTimeDepositHolding, excludedSymbols,
      alGet, alSet, alDelete, dedupFirst, sortBy, insertSorted, strLeB, strLtB, lexLt,
      cashOnlyTransactions, tsPointDay2])
    (by norm_num [tsPointDay1])

/-! ## Claim C4 -/

theorem lexLt_antisymm (a : List Char) : ∀ b, lexLt a b = false → lexLt b a = false → a = b := by
  induction a with
  | nil =>
    intro b h1 _
    cases b with
    | nil => rfl
    | cons y ys => simp [lexLt] at h1
  | cons x xs ih =>
    intro b h1 h2
    cases b with
    | nil => simp [lexLt] at h2
    | cons y ys =>
      simp only [lexLt] at h1 h2
      have hxy : x.toNat = y.toNat := by
        by_contra hne
        rcases Nat.lt_or_ge x.toNat y.toNat with h | h
        · simp [h] at h1
        · have : y.toNat < x.toNat := by omega
          simp [this] at h2
      have hchar : x = y := Char.eq_of_val_eq (by
        have : x.val.toNat = y.val.toNat := hxy
        exact UInt32.ext this)
      subst hchar
      have h1r : lexLt xs ys = false := by simpa using h1
      have h2r : lexLt ys xs = false := by simpa using h2
      rw [ih ys h1r h2r]

theorem lexLt_false_trans (a b c : List Char) (h1 : lexLt a b = false)
    (h2 : lexLt b c = false) : lexLt a c = false := by
  by_contra hcon
  have hac : lexLt a c = true := by simpa using hcon
  cases hcb : lexLt c b with
  | true =>
    have := lexLt_trans a c b hac hcb
    rw [h1] at this
    exact Bool.noConfusion this
  | false =>
    have hbc : b = c := lexLt_antisymm b c h2 hcb
    subst hbc
    rw [h1] at hac
    exact Bool.noConfusion hac

theorem strLtB_false_trans (a b c : String) (h1 : strLtB a b = false)
    (h2 : strLtB b c = false) : strLtB a c = false :=
  lexLt_false_trans a.data b.data c.data h1 h2

/-- The fold used for the max-date scan returns an element of the
scanned list (or the seed), has a date not strictly before the seed,
and has a date not strictly before any scanned element. -/
theorem latestOf_spec (l : List Quote) : ∀ b : Quote,
    (latestOf b l = b ∨ latestOf b l ∈ l) ∧
    strLtB (latestOf b l).Date b.Date = false ∧
    ∀ q2 ∈ l, strLtB (latestOf b l).Date q2.Date = false := by
  induction l with
  | nil => intro b; exact ⟨Or.inl rfl, strLtB_irrefl _, by simp⟩
  | cons x xs ih =>
    intro b
    unfold latestOf
    rw [List.foldl_cons]
    by_cases hbx : strLtB b.Date x.Date = true
    · rw [if_pos hbx]
      obtain ⟨hmem, hb2, hall⟩ := ih x
      refine ⟨?_, ?_, ?_⟩
      · rcases hmem with h | h
        · exact Or.inr (by simp [latestOf] at h ⊢; simp [h])
        · exact Or.inr (List.mem_cons_of_mem _ h)
      · by_contra hcon
        have htr := strLtB_trans _ _ _ (by simpa using hcon) hbx
        unfold latestOf at hb2
        rw [hb2] at htr
        exact Bool.noConfusion htr
      · intro q2 hq2
        rcases List.mem_cons.mp hq2 with rfl | hq2
        · exact hb2
        · exact hall q2 hq2
    · rw [if_neg hbx]
      obtain ⟨hmem, hb2, hall⟩ := ih b
      refine ⟨?_, hb2, ?_⟩
      · rcases hmem with h | h
        · exact Or.inl h
        · exact Or.inr (List.mem_cons_of_mem _ h)
      · intro q2 hq2
        rcases List.mem_cons.mp hq2 with rfl | hq2
        · exact strLtB_false_trans _ _ _ hb2 (by simpa using hbx)
        · exact hall q2 hq2

/-- Counterexample to C4 as stated: in `processHoldings` (the holding
valuator the claim cites) a latest-quote miss is priced at 0, not via
the recorded net price (5) and not via the literal 1.0 — the five-step
chain does not run there. -/
theorem price_fallback_counterexample :
    (processHoldings netPriceTransactions [] [] (some "Open Items") false).map
      (fun h => (h.Price, h.Value)) = [(0, 0)] ∧
    ¬ (processHoldings netPriceTransactions [] [] (some "Open Items") false).map
      (fun h => h.Price) = [5] ∧
    ¬ (processHoldings netPriceTransactions [] [] (some "Open Items") false).map
      (fun h => h.Price) = [1] := by
  refine ⟨?_, ?_, ?_⟩ <;>
    norm_num +decide [processHoldings, mkHolding, groupKeys, groupFor, keyOf, netQty,
      cashBalanceOf, dedupFirst, netPriceTransactions, alGet, alSet, sortBy, insertSorted,
      strLeB, strLtB, lexLt, splitOnPred, splitOnPred.go]

/-- Claim C4 (amended): the chain latest-quote-with-positive-close,
then max-date exact scan of the quotes list, then first-transaction net
price with literal 1.0 as last resort, lives in the open-deposits
valuator (part_003) and never throws; the prefix-match step exists only
in the fixed-income metric paths, and the main `processHoldings`
valuator instead prices a latest-quote miss at 0. -/
theorem price_resolution (lq : Option (List (String × Quote))) (qs : Option (List Quote))
    (sym : String) (group : List Transaction) :
    (∀ lqm q, lq = some lqm → alGet lqm sym = some q → q.Close > 0 →
      resolveOpenDepositPrice lq qs sym group =
        { price := q.Close, priceSource := "latestQuotes" }) ∧
    ((resolveOpenDepositPrice lq qs sym group).priceSource = "quotes array" →
      ∃ q, q ∈ qs.getD [] ∧ q.Symbol = sym ∧ q.Close > 0 ∧
        (resolveOpenDepositPrice lq qs sym group).price = q.Close ∧
        ∀ q2 ∈ qs.getD [], q2.Symbol = sym → q2.Close > 0 →
          strLtB q.Date q2.Date = false) ∧
    ((resolveOpenDepositPrice lq qs sym group).priceSource = "transaction Net Price" →
      (resolveOpenDepositPrice lq qs sym group).price =
        (if ((group.get? 0).map (fun t => t.NetPrice)).getD 0 = 0 then 1
          else ((group.get? 0).map (fun t => t.NetPrice)).getD 0)) ∧
    (∀ (m2 : List (String × SymbolMeta)) (lq2 : List (String × Quote)) (stT : Option String)
        (inc : Bool) (cb : ℚ) (k : String) (g : List Transaction),
      alGet lq2 (((splitOnPred (fun c => c = '-') k).get? 0).getD "") = none →
      (mkHolding m2 lq2 stT inc cb k g).Price = 0) := by
  refine ⟨?_, ?_, ?_, ?_⟩
  · intro lqm q hlq halget hpos
    subst hlq
    simp [resolveOpenDepositPrice, halget, hpos]
  · unfold resolveOpenDepositPrice
    cases hfl : (match lq with
      | some lqm =>
        match alGet lqm sym with
        | some quote => if quote.Close > 0 then some quote.Close else none
        | none => none
      | none => (none : Option ℚ)) with
    | some price => simp
    | none =>
      dsimp only
      split
      · rename_i first rest heq
        intro _
        obtain ⟨hmem, _, hall⟩ := latestOf_spec (first :: rest) first
        have hmem2 : latestOf first (first :: rest) ∈ first :: rest := by
          rcases hmem with h | h
          · rw [h]; exact List.mem_cons_self _ _
          · exact h
        have hsub : ∀ q2, q2 ∈ (first :: rest) →
            q2 ∈ qs.getD [] ∧ q2.Symbol = sym ∧ q2.Close > 0 := by
          intro q2 hq2
          rw [← heq] at hq2
          have hp := List.mem_filter.mp hq2
          have hpred := hp.2
          have hpred2 : q2.Symbol = sym ∧ q2.Close > 0 := of_decide_eq_true hpred
          exact ⟨hp.1, hpred2.1, hpred2.2⟩
        refine ⟨latestOf first (first :: rest), (hsub _ hmem2).1, (hsub _ hmem2).2.1,
          (hsub _ hmem2).2.2, rfl, ?_⟩
        intro q2 hq2mem hq2sym hq2pos
        have hq2filter : q2 ∈ first :: rest := by
          rw [← heq]
          exact List.mem_filter.mpr ⟨hq2mem, by simp [hq2sym, hq2pos]⟩
        exact hall q2 hq2filter
      · simp
  · unfold resolveOpenDepositPrice
    cases hfl : (match lq with
      | some lqm =>
        match alGet lqm sym with
        | some quote => if quote.Close > 0 then some quote.Close else none
        | none => none
      | none => (none : Option ℚ)) with
    | some price => simp
    | none =>
      dsimp only
      split
      · simp
      · intro _
        rfl
  · intro m2 lq2 stT inc cb k g hnone
    simp only [List.get?_eq_getElem?] at hnone
    simp [mkHolding, hnone]

/-- Witness for C4 (amended): a latest-quote entry with positive close
wins the chain in the open-deposits valuator. -/
theorem price_resolution_witness :
    resolveOpenDepositPrice (some [("D", depositQuote)]) (some []) "D" [] =
      { price := 7, priceSource := "latestQuotes" } := by
  have h := (price_resolution (some [("D", depositQuote)]) (some []) "D" []).1
    [("D", depositQuote)] depositQuote rfl (by simp [alGet, List.find?])
    (by norm_num [depositQuote])
  simpa [depositQuote] using h

/-! ## Claim C5 -/

theorem mem_alSet {β : Type} (m : List (String × β)) (k : String) (v : β) (p : String × β) :
    p ∈ alSet m k v → p = (k, v) ∨ p ∈ m := by
  simp only [alSet]
  split
  · intro hp
    obtain ⟨p0, hp0, heq⟩ := List.mem_map.mp hp
    by_cases hk : p0.1 = k
    · rw [if_pos hk] at heq
      exact Or.inl heq.symm
    · rw [if_neg hk] at heq
      exact Or.inr (heq ▸ hp0)
  · intro hp
    rcases List.mem_append.mp hp with hp | hp
    · exact Or.inr hp
    · exact Or.inl (by simpa using hp)

/-- Every entry of the current-holdings aggregation stores as
UnrealizedGainPct the unguarded quotient of its accumulated fields. -/
theorem aggStep_invariant (hs : List Holding) :
    ∀ acc : List (String × AggHolding),
      (∀ p ∈ acc, p.2.UnrealizedGainPct =
        (jsDiv p.2.UnrealizedGain p.2.Cost).map (fun x => x * 100)) →
      ∀ p ∈ hs.foldl aggStep acc, p.2.UnrealizedGainPct =
        (jsDiv p.2.UnrealizedGain p.2.Cost).map (fun x => x * 100) := by
  induction hs with
  | nil => intro acc hacc p hp; exact hacc p hp
  | cons h rest ih =>
    intro acc hacc p hp
    rw [List.foldl_cons] at hp
    refine ih (aggStep acc h) ?_ p hp
    intro p2 hp2
    rcases mem_alSet _ _ _ _ hp2 with rfl | hp2
    · rfl
    · exact hacc p2 hp2

/-- Counterexample to C5 as stated: in the current-holdings aggregated
view (part_000), UnrealizedGainPct divides by the aggregated Cost with
no zero guard and no absolute value: with Cost 0 the result is
non-finite (`none`, the JavaScript Infinity/NaN), not 0; with Cost -100
and gain 50 the result is -50, not the 50 an abs-denominator would
give. -/
theorem aggregated_pct_counterexample :
    (aggregatedHoldings [zeroCostHolding]).map (fun e => e.UnrealizedGainPct) = [none] ∧
    ¬ (aggregatedHoldings [zeroCostHolding]).map (fun e => e.UnrealizedGainPct) = [some 0] ∧
    (aggregatedHoldings [negCostHolding]).map (fun e => e.UnrealizedGainPct) = [some (-50)] ∧
    ¬ (aggregatedHoldings [negCostHolding]).map (fun e => e.UnrealizedGainPct) = [some 50] := by
  refine ⟨?_, ?_, ?_, ?_⟩ <;>
    norm_num +decide [aggregatedHoldings, aggStep, alGet, alSet, jsDiv,
      zeroCostHolding, negCostHolding]

/-- Claim C5 (amended): the zero-denominator guard and the
abs-denominator division hold in the core valuators — `processHoldings`
yields exactly 0 for all three percentage fields when the aggregated
debit is 0, and the open-deposits valuator yields 0 for
UnrealizedGainPct when OpenCost is 0 — but the current-holdings
aggregated view (part_000) divides by the signed aggregated Cost with
no guard, producing a non-finite value whenever that Cost is 0. -/
theorem percentage_zero_guard (txs : List Transaction) (m : List (String × SymbolMeta))
    (lq : List (String × Quote)) (stT : Option String) (inc : Bool) (h : Holding)
    (hmem : h ∈ processHoldings txs m lq stT inc) :
    (h.Db = 0 → h.TotalReturnPct = 0 ∧ h.UnrealizedGainPct = 0 ∧ h.RealizedGainPct = 0) ∧
    (∀ (lq2 : Option (List (String × Quote))) (qs2 : Option (List Quote)) (k : String)
        (g : List Transaction), (mkOpenDepositHolding lq2 qs2 k g).Cost = 0 →
      (mkOpenDepositHolding lq2 qs2 k g).UnrealizedGainPct = 0) ∧
    (∀ (hs : List Holding) (e : AggHolding), e ∈ aggregatedHoldings hs → e.Cost = 0 →
      e.UnrealizedGainPct = none) := by
  refine ⟨?_, ?_, ?_⟩
  · intro hdb
    rw [processHoldings_eq] at hmem
    obtain ⟨k, _, rfl⟩ := List.mem_map.mp hmem
    simp only [mkHolding] at hdb ⊢
    refine ⟨?_, ?_, ?_⟩ <;> simp [hdb]
  · intro lq2 qs2 k g hcost
    simp only [mkOpenDepositHolding] at hcost ⊢
    simp [hcost]
  · intro hs e hmem2 hcost
    obtain ⟨p, hp, rfl⟩ := List.mem_map.mp hmem2
    have := aggStep_invariant hs [] (by simp) p hp
    rw [this, hcost]
    simp [jsDiv]

/-- Witness for C5 (amended) at the worked example, whose aggregated
debit is 0. -/
theorem percentage_zero_guard_witness :
    (specExampleHolding.Db = 0 → specExampleHolding.TotalReturnPct = 0 ∧
      specExampleHolding.UnrealizedGainPct = 0 ∧ specExampleHolding.RealizedGainPct = 0) ∧
    (∀ (lq2 : Option (List (String × Quote))) (qs2 : Option (List Quote)) (k : String)
        (g : List Transaction), (mkOpenDepositHolding lq2 qs2 k g).Cost = 0 →
      (mkOpenDepositHolding lq2 qs2 k g).UnrealizedGainPct = 0) ∧
    (∀ (hs : List Holding) (e : AggHolding), e ∈ aggregatedHoldings hs → e.Cost = 0 →
      e.UnrealizedGainPct = none) :=
  percentage_zero_guard specExampleTransactions [] (latestQuotesOf [specExampleQuote])
    (some "Open Items") false specExampleHolding
    (by
      norm_num +decide [processHoldings, mkHolding, groupKeys, groupFor, keyOf, netQty,
        cashBalanceOf, dedupFirst, specExampleTransactions, specExampleQuote, specExampleHolding,
        latestQuotesOf, latestQuoteStep, alGet, alSet, sortBy, insertSorted, strLeB, strLtB,
        lexLt, splitOnPred, splitOnPred.go]
      exact (abs_of_nonneg (by norm_num)).symm)

/-! ## Claim C6 -/

theorem mem_dedupFirst (l : List String) (a : String) : a ∈ dedupFirst l ↔ a ∈ l := by
  suffices h : ∀ acc, a ∈ l.foldl (fun acc k => if k ∈ acc then acc else acc ++ [k]) acc ↔
      a ∈ acc ∨ a ∈ l by
    simpa [dedupFirst] using h []
  induction l with
  | nil => intro acc; simp
  | cons x xs ih =>
    intro acc
    rw [List.foldl_cons]
    by_cases hx : x ∈ acc
    · rw [if_pos hx, ih]
      constructor
      · rintro (h | h)
        · exact Or.inl h
        · exact Or.inr (List.mem_cons_of_mem _ h)
      · rintro (h | h)
        · exact Or.inl h
        · rcases List.mem_cons.mp h with rfl | h
          · exact Or.inl hx
          · exact Or.inr h
    · rw [if_neg hx, ih]
      constructor
      · rintro (h | h)
        · rcases List.mem_append.mp h with h | h
          · exact Or.inl h
          · exact Or.inr (by simpa using List.mem_cons.mpr (Or.inl (by simpa using h)))
        · exact Or.inr (List.mem_cons_of_mem _ h)
      · rintro (h | h)
        · exact Or.inl (List.mem_append.mpr (Or.inl h))
        · rcases List.mem_cons.mp h with rfl | h
          · exact Or.inl (List.mem_append.mpr (Or.inr (by simp)))
          · exact Or.inr h

/-- The merge fold characterized field by field over any accumulator:
numeric fields add the per-series contributions, `hasQuotes` ORs them,
`egx30` is the accumulator value or some nonzero series value, and
every recorded account total comes from some series entry. -/
theorem mergeFold_spec (date : String) (arr : List (List TSPoint)) :
    ∀ init : TSPoint,
      (arr.foldl (mergeSeriesEntry date) init).cashValue =
        init.cashValue + (arr.map (seriesContrib (fun e => e.cashValue) date)).sum ∧
      (arr.foldl (mergeSeriesEntry date) init).equityValue =
        init.equityValue + (arr.map (seriesContrib (fun e => e.equityValue) date)).sum ∧
      (arr.foldl (mergeSeriesEntry date) init).totalValue =
        init.totalValue + (arr.map (seriesContrib (fun e => e.totalValue) date)).sum ∧
      (arr.foldl (mergeSeriesEntry date) init).realizedGain =
        init.realizedGain + (arr.map (seriesContrib (fun e => e.realizedGain) date)).sum ∧
      (arr.foldl (mergeSeriesEntry date) init).unrealizedGain =
        init.unrealizedGain + (arr.map (seriesContrib (fun e => e.unrealizedGain) date)).sum ∧
      (arr.foldl (mergeSeriesEntry date) init).hasQuotes =
        (init.hasQuotes || arr.any (seriesHasQuotes date)) ∧
      ((arr.foldl (mergeSeriesEntry date) init).egx30 = init.egx30 ∨
        ∃ s ∈ arr, ∃ e, s.find? (fun e => e.date = date) = some e ∧
          (arr.foldl (mergeSeriesEntry date) init).egx30 = e.egx30 ∧ ¬ e.egx30 = 0) ∧
      (∀ a tv,
        alGet ((arr.foldl (mergeSeriesEntry date) init).accountValues.getD []) a = some tv →
        alGet (init.accountValues.getD []) a = some tv ∨
        ∃ s ∈ arr, ∃ e, s.find? (fun e => e.date = date) = some e ∧
          e.account = some a ∧ e.totalValue = tv) := by
  induction arr with
  | nil =>
    intro init
    refine ⟨by simp, by simp, by simp, by simp, by simp, by simp, Or.inl rfl, ?_⟩
    intro a tv h
    exact Or.inl h
  | cons s rest ih =>
    intro init
    rw [List.foldl_cons]
    cases hf : s.find? (fun e => e.date = date) with
    | none =>
      have hM : mergeSeriesEntry date init s = init := by
        unfold mergeSeriesEntry
        rw [hf]
      rw [hM]
      obtain ⟨ihc, ihe, iht, ihr, ihu, ihq, ihg, ihv⟩ := ih init
      have hcontrib : ∀ f : TSPoint → ℚ, seriesContrib f date s = 0 := by
        intro f
        unfold seriesContrib
        rw [hf]
      have hquotes : seriesHasQuotes date s = false := by
        unfold seriesHasQuotes
        rw [hf]
      refine ⟨?_, ?_, ?_, ?_, ?_, ?_, ?_, ?_⟩
      · rw [ihc]; simp [hcontrib]
      · rw [ihe]; simp [hcontrib]
      · rw [iht]; simp [hcontrib]
      · rw [ihr]; simp [hcontrib]
      · rw [ihu]; simp [hcontrib]
      · rw [ihq]; simp [hquotes]
      · rcases ihg with h | ⟨s2, hs2, e2, he2⟩
        · exact Or.inl h
        · exact Or.inr ⟨s2, List.mem_cons_of_mem _ hs2, e2, he2⟩
      · intro a tv h
        rcases ihv a tv h with h2 | ⟨s2, hs2, e2, he2⟩
        · exact Or.inl h2
        · exact Or.inr ⟨s2, List.mem_cons_of_mem _ hs2, e2, he2⟩
    | some e =>
      obtain ⟨ihc, ihe, iht, ihr, ihu, ihq, ihg, ihv⟩ := ih (mergeSeriesEntry date init s)
      have hMc : (mergeSeriesEntry date init s).cashValue = init.cashValue + e.cashValue := by
        unfold mergeSeriesEntry; rw [hf]
      have hMe : (mergeSeriesEntry date init s).equityValue =
          init.equityValue + e.equityValue := by
        unfold mergeSeriesEntry; rw [hf]
      have hMt : (mergeSeriesEntry date init s).totalValue = init.totalValue + e.totalValue := by
        unfold mergeSeriesEntry; rw [hf]
      have hMr : (mergeSeriesEntry date init s).realizedGain =
          init.realizedGain + e.realizedGain := by
        unfold mergeSeriesEntry; rw [hf]
      have hMu : (mergeSeriesEntry date init s).unrealizedGain =
          init.unrealizedGain + e.unrealizedGain := by
        unfold mergeSeriesEntry; rw [hf]
      have hMq : (mergeSeriesEntry date init s).hasQuotes =
          (init.hasQuotes || e.hasQuotes) := by
        unfold mergeSeriesEntry; rw [hf]
      have hMg : (mergeSeriesEntry date init s).egx30 =
          if ¬ e.egx30 = 0 then e.egx30 else init.egx30 := by
        unfold mergeSeriesEntry; rw [hf]
      have hMv : (mergeSeriesEntry date init s).accountValues =
          (match e.account with
           | some a =>
             if ¬ a = "" then some (alSet (init.accountValues.getD []) a e.totalValue)
             else init.accountValues
           | none => init.accountValues) := by
        unfold mergeSeriesEntry; rw [hf]
      have hcontrib : ∀ f : TSPoint → ℚ, seriesContrib f date s = f e := by
        intro f
        unfold seriesContrib
        rw [hf]
      have hquotes : seriesHasQuotes date s = e.hasQuotes := by
        unfold seriesHasQuotes
        rw [hf]
      refine ⟨?_, ?_, ?_, ?_, ?_, ?_, ?_, ?_⟩
      · rw [ihc, hMc]; simp [hcontrib]; ring
      · rw [ihe, hMe]; simp [hcontrib]; ring
      · rw [iht, hMt]; simp [hcontrib]; ring
      · rw [ihr, hMr]; simp [hcontrib]; ring
      · rw [ihu, hMu]; simp [hcontrib]; ring
      · rw [ihq, hMq]; simp [hquotes, Bool.or_assoc]
      · rcases ihg with h | ⟨s2, hs2, e2, he2⟩
        · rw [hMg] at h
          by_cases hz : e.egx30 = 0
          · rw [if_neg (not_not_intro hz)] at h
            exact Or.inl h
          · rw [if_pos hz] at h
            exact Or.inr ⟨s, List.mem_cons_self _ _, e, hf, h, hz⟩
        · exact Or.inr ⟨s2, List.mem_cons_of_mem _ hs2, e2, he2⟩
      · intro a tv h
        rcases ihv a tv h with h2 | ⟨s2, hs2, e2, he2⟩
        · rw [hMv] at h2
          cases hacct : e.account with
          | none =>
            rw [hacct] at h2
            exact Or.inl h2
          | some a2 =>
            simp only [hacct] at h2
            by_cases ha2 : a2 = ""
            · rw [if_neg (not_not_intro ha2)] at h2
              exact Or.inl h2
            · rw [if_pos ha2] at h2
              simp only [Option.getD_some] at h2
              by_cases haa : a2 = a
              · subst haa
                rw [alGet_alSet_self] at h2
                have hval : e.totalValue = tv := by injection h2
                exact Or.inr ⟨s, List.mem_cons_self _ _, e, hf, hacct, hval⟩
              · rw [alGet_alSet_ne _ _ _ _ haa] at h2
                exact Or.inl h2
        · exact Or.inr ⟨s2, List.mem_cons_of_mem _ hs2, e2, he2⟩

theorem mergeSeriesEntry_date (date : String) (init : TSPoint) (s : List TSPoint) :
    (mergeSeriesEntry date init s).date = init.date := by
  unfold mergeSeriesEntry
  cases hf : s.find? (fun e => e.date = date) with
  | none => rfl
  | some e => rfl

theorem mergeAt_date (arr : List (List TSPoint)) (date : String) :
    (mergeAt arr date).date = date := by
  unfold mergeAt
  suffices h : ∀ init : TSPoint, (arr.foldl (mergeSeriesEntry date) init).date = init.date by
    rw [h]
    rfl
  induction arr with
  | nil => intro init; rfl
  | cons s rest ih =>
    intro init
    rw [List.foldl_cons, ih, mergeSeriesEntry_date]

/-- Claim C6: the all-accounts merge unions the dates of the per-account
series and, per date, sums the cash, equity, total, realized and
unrealized values over the accounts present on that date, ORs the
hasQuotes flags, keeps only nonzero benchmark values taken from some
present entry, and records per-account totals only as the totalValue of
the owning series entry; on the two-account example with totalValue 100
each, the merged point has totalValue 200 and both account names mapped
to 100. -/
theorem mergeTimeSeries_pointwise (arr : List (List TSPoint)) (date : String) :
    ((mergeAt arr date).cashValue =
        (arr.map (seriesContrib (fun e => e.cashValue) date)).sum ∧
      (mergeAt arr date).equityValue =
        (arr.map (seriesContrib (fun e => e.equityValue) date)).sum ∧
      (mergeAt arr date).totalValue =
        (arr.map (seriesContrib (fun e => e.totalValue) date)).sum ∧
      (mergeAt arr date).realizedGain =
        (arr.map (seriesContrib (fun e => e.realizedGain) date)).sum ∧
      (mergeAt arr date).unrealizedGain =
        (arr.map (seriesContrib (fun e => e.unrealizedGain) date)).sum) ∧
    (mergeAt arr date).hasQuotes = arr.any (seriesHasQuotes date) ∧
    ((mergeAt arr date).egx30 = 0 ∨
      ∃ s ∈ arr, ∃ e, s.find? (fun e => e.date = date) = some e ∧
        (mergeAt arr date).egx30 = e.egx30 ∧ ¬ e.egx30 = 0) ∧
    (∀ a tv, alGet ((mergeAt arr date).accountValues.getD []) a = some tv →
      ∃ s ∈ arr, ∃ e, s.find? (fun e => e.date = date) = some e ∧
        e.account = some a ∧ e.totalValue = tv) ∧
    (¬ arr = [] → (mergeTimeSeriesData arr).map (fun p => p.date) = mergedDates arr) ∧
    (date ∈ mergedDates arr ↔ ∃ s ∈ arr, ∃ e ∈ s, e.date = date) ∧
    mergeTimeSeriesData [[accountPoint "Acc1"], [accountPoint "Acc2"]] =
      [{ date := "2024-01-01", cashValue := 0, equityValue := 200, totalValue := 200,
         realizedGain := 0, unrealizedGain := 0, egx30 := 0, hasQuotes := true,
         account := none, accountValues := some [("Acc1", 100), ("Acc2", 100)] }] := by
  obtain ⟨hc, he, ht, hr, hu, hq, hg, hv⟩ := mergeFold_spec date arr (mergeInit date)
  refine ⟨⟨?_, ?_, ?_, ?_, ?_⟩, ?_, ?_, ?_, ?_, ?_, ?_⟩
  · rw [show mergeAt arr date = arr.foldl (mergeSeriesEntry date) (mergeInit date) from rfl,
      hc]
    simp [mergeInit]
  · rw [show mergeAt arr date = arr.foldl (mergeSeriesEntry date) (mergeInit date) from rfl,
      he]
    simp [mergeInit]
  · rw [show mergeAt arr date = arr.foldl (mergeSeriesEntry date) (mergeInit date) from rfl,
      ht]
    simp [mergeInit]
  · rw [show mergeAt arr date = arr.foldl (mergeSeriesEntry date) (mergeInit date) from rfl,
      hr]
    simp [mergeInit]
  · rw [show mergeAt arr date = arr.foldl (mergeSeriesEntry date) (mergeInit date) from rfl,
      hu]
    simp [mergeInit]
  · rw [show mergeAt arr date = arr.foldl (mergeSeriesEntry date) (mergeInit date) from rfl,
      hq]
    simp [mergeInit]
  · rcases hg with h | ⟨s, hs, e, hfind, heq, hne⟩
    · exact Or.inl h
    · exact Or.inr ⟨s, hs, e, hfind, heq, hne⟩
  · intro a tv h
    rcases hv a tv h with h2 | h2
    · simp [mergeInit, alGet] at h2
    · exact h2
  · intro hne
    unfold mergeTimeSeriesData
    rw [if_neg (by simpa using hne)]
    rw [List.map_map]
    conv_rhs => rw [← List.map_id (mergedDates arr)]
    apply List.map_congr_left
    intro d _
    exact mergeAt_date arr d
  · unfold mergedDates
    rw [mem_sortBy, mem_dedupFirst]
    simp only [List.mem_flatMap, List.mem_map]
  · norm_num +decide [mergeTimeSeriesData, mergedDates, mergeAt, mergeSeriesEntry, mergeInit,
      dedupFirst, sortBy, insertSorted, strLeB, strLtB, lexLt, alSet, alGet, accountPoint,
      List.find?]

/-- Witness for C6 on the two-account example. -/
theorem mergeTimeSeries_pointwise_witness :
    (mergeAt [[accountPoint "Acc1"], [accountPoint "Acc2"]] "2024-01-01").totalValue =
      ([[accountPoint "Acc1"], [accountPoint "Acc2"]].map
        (seriesContrib (fun e => e.totalValue) "2024-01-01")).sum ∧
    (∃ s ∈ [[accountPoint "Acc1"], [accountPoint "Acc2"]], ∃ e,
      s.find? (fun e => e.date = "2024-01-01") = some e ∧ e.account = some "Acc1" ∧
      e.totalValue = 100) :=
  ⟨(mergeTimeSeries_pointwise [[accountPoint "Acc1"], [accountPoint "Acc2"]]
      "2024-01-01").1.2.2.1,
   (mergeTimeSeries_pointwise [[accountPoint "Acc1"], [accountPoint "Acc2"]]
      "2024-01-01").2.2.2.1 "Acc1" 100
     (by norm_num +decide [mergeAt, mergeSeriesEntry, mergeInit, alSet, alGet, accountPoint,
       List.find?])⟩

/-! ## Claim C8 -/

/-- Claim C8: if any of the three input texts is empty, the run logs
the missing-data error, aborts, and returns the empty-but-valid shell
(empty accounts, holdings and time-series lists, all-zero summary
metrics); and any error of the try-block body is caught at the
outermost boundary, logged with its message, and converted to the same
shell instead of propagating. -/
theorem missing_input_empty_shell (t s q sel : String) :
    ((t = "" ∨ s = "" ∨ q = "") →
      processPortfolioData t s q sel =
        (emptyPortfolioData,
          ["Error: Missing required CSV data",
           "Error in processPortfolioData: Missing required CSV data"]) ∧
      "Error: Missing required CSV data" ∈ (processPortfolioData t s q sel).2) ∧
    (∀ msg logs, processPortfolioDataCore t s q sel = .error (msg, logs) →
      (processPortfolioData t s q sel).1 = emptyPortfolioData ∧
      (processPortfolioData t s q sel).2 =
        logs ++ ["Error in processPortfolioData: " ++ msg]) ∧
    emptyPortfolioData.accounts = [] ∧
    emptyPortfolioData.currentHoldings = [] ∧
    emptyPortfolioData.closedPositions = [] ∧
    emptyPortfolioData.timeSeriesData = [] ∧
    emptyPortfolioData.transactions = [] ∧
    emptyPortfolioData.summaryMetrics =
      { totalValue := 0, cashBalance := 0, equityValue := 0, realizedGain := 0,
        unrealizedGain := 0 } := by
  refine ⟨?_, ?_, rfl, rfl, rfl, rfl, rfl, rfl⟩
  · intro hmiss
    have hcore : processPortfolioDataCore t s q sel =
        .error ("Missing required CSV data", ["Error: Missing required CSV data"]) := by
      unfold processPortfolioDataCore
      rw [if_pos hmiss]
    constructor
    · unfold processPortfolioData
      rw [hcore]
      rfl
    · unfold processPortfolioData
      rw [hcore]
      decide
  · intro msg logs hcore
    unfold processPortfolioData
    rw [hcore]
    exact ⟨rfl, rfl⟩

/-- Witness for C8 at an empty transactions text. -/
theorem missing_input_empty_shell_witness :
    processPortfolioData "" "sym" "quo" "all" =
      (emptyPortfolioData,
        ["Error: Missing required CSV data",
         "Error in processPortfolioData: Missing required CSV data"]) ∧
    (processPortfolioData "" "sym" "quo" "all").1 = emptyPortfolioData :=
  ⟨((missing_input_empty_shell "" "sym" "quo" "all").1 (Or.inl rfl)).1,
   ((missing_input_empty_shell "" "sym" "quo" "all").2.1 "Missing required CSV data"
      ["Error: Missing required CSV data"] (by
        unfold processPortfolioDataCore
        rw [if_pos (Or.inl rfl)])).1⟩

/-! ## Claim C9 -/

/-- Claim C9: the pipeline is a pure function of the three raw input
texts and the selected account — two runs on the same inputs produce
field-for-field identical portfolio data — so re-importing the export
envelope, which stores the raw texts and re-runs the full pipeline with
the `"all"` selection, reproduces the original all-accounts result
exactly. -/
theorem roundtrip_reprocess (t s q : String) :
    reprocessEnvelope { transactionsText := t, symbolsText := s, quotesText := q } =
      (processPortfolioData t s q "all").1 ∧
    (∀ sel : String, ∀ r1 r2 : PortfolioData × List String,
      r1 = processPortfolioData t s q sel → r2 = processPortfolioData t s q sel →
      r1.1 = r2.1 ∧ r1.2 = r2.2) := by
  refine ⟨rfl, ?_⟩
  rintro sel r1 r2 rfl rfl
  exact ⟨rfl, rfl⟩

/-- Witness for C9 at concrete texts. -/
theorem roundtrip_reprocess_witness :
    reprocessEnvelope { transactionsText := "t", symbolsText := "s", quotesText := "q" } =
      (processPortfolioData "t" "s" "q" "all").1 ∧
    (processPortfolioData "t" "s" "q" "all").1 = (processPortfolioData "t" "s" "q" "all").1 :=
  ⟨(roundtrip_reprocess "t" "s" "q").1,
   ((roundtrip_reprocess "t" "s" "q").2 "all" _ _ rfl rfl).1⟩

/-! ## Claim C10 -/

/-- The summary of the success path satisfies the additivity
invariant by construction. -/
theorem processPortfolioDataOk_summary (t s q sel : String) :
    (processPortfolioDataOk t s q sel).1.summaryMetrics.totalValue =
      (processPortfolioDataOk t s q sel).1.summaryMetrics.equityValue +
      (processPortfolioDataOk t s q sel).1.summaryMetrics.cashBalance := rfl

/-- Claim C10: every run satisfies totalValue = equityValue +
cashBalance, both in the top-level summary metrics and in every
per-account summary record; with the `"all"` selection the top-level
equity and cash are moreover the sums of the per-account values. -/
theorem summary_totalValue_invariant (t s q sel : String) :
    (processPortfolioData t s q sel).1.summaryMetrics.totalValue =
      (processPortfolioData t s q sel).1.summaryMetrics.equityValue +
      (processPortfolioData t s q sel).1.summaryMetrics.cashBalance ∧
    (∀ acc ∈ (processPortfolioData t s q sel).1.accounts,
      acc.summaryMetrics.totalValue =
        acc.summaryMetrics.equityValue + acc.summaryMetrics.cashBalance) ∧
    (sel = "all" →
      (processPortfolioData t s q sel).1.summaryMetrics.equityValue =
        ((processPortfolioData t s q sel).1.accounts.map
          (fun acc => acc.summaryMetrics.equityValue)).sum ∧
      (processPortfolioData t s q sel).1.summaryMetrics.cashBalance =
        ((processPortfolioData t s q sel).1.accounts.map
          (fun acc => acc.summaryMetrics.cashBalance)).sum) := by
  unfold processPortfolioData
  cases hcore : processPortfolioDataCore t s q sel with
  | error e =>
    refine ⟨by simp [emptyPortfolioData], ?_, ?_⟩
    · intro acc hacc
      simp [emptyPortfolioData] at hacc
    · intro _
      simp [emptyPortfolioData]
  | ok r =>
    have hr : r = processPortfolioDataOk t s q sel := by
      unfold processPortfolioDataCore at hcore
      by_cases hmiss : t = "" ∨ s = "" ∨ q = ""
      · rw [if_pos hmiss] at hcore
        exact absurd hcore (by simp)
      · rw [if_neg hmiss] at hcore
        have := hcore
        injection this with h1
        exact h1.symm
    subst hr
    refine ⟨processPortfolioDataOk_summary t s q sel, ?_, ?_⟩
    · intro acc hacc
      have haccs : (processPortfolioDataOk t s q sel).1.accounts =
          (sortBy strLeB ((((parseCSVTransactions t).map
            (fun tr => if ¬ tr.Date = "" then { tr with Date := standardizeDate tr.Date }
              else tr)).foldl
            (fun m tr =>
              let account := trimString tr.Account
              if ¬ account = "" ∧ ¬ account = "all" ∧ ¬ account = "All Accounts" then
                alPush m account tr
              else m) []).map (fun p => p.1))).map
            (processAccount
              (symbolMapOf (parseCSVSymbols s))
              (latestQuotesOf ((parseCSVQuotes q).map
                (fun qu => if ¬ qu.Date = "" then { qu with Date := standardizeDate qu.Date }
                  else qu)))
              ((parseCSVQuotes q).map
                (fun qu => if ¬ qu.Date = "" then { qu with Date := standardizeDate qu.Date }
                  else qu))
              (quoteDatesOf ((parseCSVQuotes q).map
                (fun qu => if ¬ qu.Date = "" then { qu with Date := standardizeDate qu.Date }
                  else qu)))
              (((parseCSVTransactions t).map
                (fun tr => if ¬ tr.Date = "" then { tr with Date := standardizeDate tr.Date }
                  else tr)).foldl
                (fun m tr =>
                  let account := trimString tr.Account
                  if ¬ account = "" ∧ ¬ account = "all" ∧ ¬ account = "All Accounts" then
                    alPush m account tr
                  else m) [])) := rfl
      rw [haccs] at hacc
      obtain ⟨name, _, rfl⟩ := List.mem_map.mp hacc
      rfl
    · intro hsel
      subst hsel
      exact ⟨rfl, rfl⟩

/-- Witness for C10 at concrete inputs with the `"all"` selection. -/
theorem summary_totalValue_invariant_witness :
    (processPortfolioData "tx" "sy" "qu" "all").1.summaryMetrics.totalValue =
      (processPortfolioData "tx" "sy" "qu" "all").1.summaryMetrics.equityValue +
      (processPortfolioData "tx" "sy" "qu" "all").1.summaryMetrics.cashBalance ∧
    ((processPortfolioData "tx" "sy" "qu" "all").1.summaryMetrics.equityValue =
      ((processPortfolioData "tx" "sy" "qu" "all").1.accounts.map
        (fun acc => acc.summaryMetrics.equityValue)).sum ∧
     (processPortfolioData "tx" "sy" "qu" "all").1.summaryMetrics.cashBalance =
      ((processPortfolioData "tx" "sy" "qu" "all").1.accounts.map
        (fun acc => acc.summaryMetrics.cashBalance)).sum) ∧
    (∀ acc ∈ (processPortfolioData "tx" "sy" "qu" "all").1.accounts,
      acc.summaryMetrics.totalValue =
        acc.summaryMetrics.equityValue + acc.summaryMetrics.cashBalance) :=
  ⟨(summary_totalValue_invariant "tx" "sy" "qu" "all").1,
   (summary_totalValue_invariant "tx" "sy" "qu" "all").2.2 rfl,
   (summary_totalValue_invariant "tx" "sy" "qu" "all").2.1⟩
